import Mathlib

/-!
# Mirror-and-policy pipeline of `src/test.js`

A shallow embedding of `syncRepository`, `ensureRemote` and
`detectIndonesianComments`.

* JavaScript strings are lists of characters (`Str`); a value that may be
  `undefined` or `null` is an `Option Str`.
* The asynchronous, effectful code is a function into `Run α`: the list of
  external operations issued, in order, together with the value returned or
  the error thrown.
* Code points stand for the UTF-16 units of the source: every position the
  code inspects (the `+` marker, `/`, the comment openers, the stop-words,
  white space) is a Basic Latin or BMP character, and a character outside
  `\w` stays outside `\w` however it is encoded.
* Building a client (`simpleGit()`, `simpleGit(repoDir)`) issues no operation.
* Everything the code asks of the outside (file system, environment, git,
  the chat-completion client) is answered by a `World`. Every call site of
  the source runs at most once per event and with arguments that differ from
  those of the other call sites, so a `World` indexed by the arguments
  covers every possible behaviour of the collaborators.
-/

namespace Mirror

/-- A JavaScript string. -/
abbrev Str := List Char

instance : Coe String Str := ⟨String.toList⟩

/-- JavaScript truthiness of a possibly missing string: `undefined`, `null`
and `''` are falsy, every other string is truthy. -/
def truthy : Option Str → Bool
  | some (_ :: _) => true
  | _ => false

/-! ## String primitives -/

/-- The method `String.prototype.split` with a one-character separator. -/
def jsSplit (sep : Char) : Str → List Str
  | [] => [[]]
  | c :: cs =>
    if c = sep then [] :: jsSplit sep cs
    else
      match jsSplit sep cs with
      | [] => [[c]]
      | seg :: rest => (c :: seg) :: rest

/-- White space and line terminators of ECMAScript, the characters removed by
`String.prototype.trim`. -/
def isJsWhiteSpace (c : Char) : Bool :=
  [0x09, 0x0A, 0x0B, 0x0C, 0x0D, 0x20, 0xA0, 0x1680, 0x2028, 0x2029, 0x202F,
    0x205F, 0x3000, 0xFEFF].contains c.toNat
    || (0x2000 ≤ c.toNat && c.toNat ≤ 0x200A)

/-- The method `String.prototype.trim`. -/
def jsTrim (s : Str) : Str :=
  ((s.dropWhile isJsWhiteSpace).reverse.dropWhile isJsWhiteSpace).reverse

/-- Lower-case form of one character. Besides `A`-`Z`, the only code points
whose lower-case form contains a Basic Latin letter are U+212A (to `k`) and
U+0130 (to `i` followed by U+0307). Code points whose lower-case form lies
outside Basic Latin are left as they are: the pipeline only compares the
result with the literal `true`, which no such form can equal. -/
def lowerChar (c : Char) : Str :=
  if c.toNat = 0x212A then ['k']
  else if c.toNat = 0x0130 then ['i', Char.ofNat 0x0307]
  else [c.toLower]

/-- The method `String.prototype.toLowerCase`, see `lowerChar`. -/
def jsToLowerCase (s : Str) : Str := s.flatMap lowerChar

/-- The test `/^(\/\/|#|\*|\/\*)/.test(line)`. -/
def commentMarker (line : Str) : Bool :=
  List.isPrefixOf (α := Char) "//" line || List.isPrefixOf (α := Char) "#" line
    || List.isPrefixOf (α := Char) "*" line || List.isPrefixOf (α := Char) "/*" line

/-- The chain `split / filter / map / filter` computing `commentLines`. -/
def commentLines (diffText : Str) : List Str :=
  (((jsSplit '\n' diffText).filter fun line =>
      List.isPrefixOf (α := Char) "+" line && !List.isPrefixOf (α := Char) "+++" line).map
    fun line => jsTrim (line.drop 1)).filter commentMarker

/-! ## The regular expression `stopWords` -/

/-- The alternatives of the group in `stopWords`, in source order. -/
def stopWordList : List Str :=
  ["yang", "bisa", "tidak", "kita", "kami", "saya", "anda", "dengan", "untuk", "atau",
    "pada", "sebuah", "adalah"].map String.toList

/-- The class `\w` of a regular expression without the `u` flag. -/
def isWordChar (c : Char) : Bool := c.isAlphanum || c == '_'

/-- The assertion `\b` between the character before and the character after a
position, each absent at an end of the input. -/
def wordBoundary (prev next : Option Char) : Bool :=
  (prev.map isWordChar).getD false != (next.map isWordChar).getD false

/-- Matches the literal `w` at the head of the input under the `i` flag
(without `u`: only Basic Latin letters fold), returning the last character
consumed and the rest of the input. -/
def matchLiteral : Str → Option Char → Str → Option (Option Char × Str)
  | [], prev, s => some (prev, s)
  | _ :: _, _, [] => none
  | p :: ps, _, c :: cs =>
    if p.toUpper = c.toUpper then matchLiteral ps (some c) cs else none

/-- Whether `\b(yang|...|adalah)\b` matches starting exactly at this position. -/
def stopWordsAt (prev : Option Char) (s : Str) : Bool :=
  wordBoundary prev s.head? &&
    stopWordList.any fun w =>
      match matchLiteral w prev s with
      | some (last, rest) => wordBoundary last rest.head?
      | none => false

/-- Scans the start positions from left to right. -/
def stopWordsFrom (prev : Option Char) : Str → Bool
  | [] => stopWordsAt prev []
  | c :: cs => stopWordsAt prev (c :: cs) || stopWordsFrom (some c) cs

/-- The test `stopWords.test(l)`. -/
def stopWordsTest (l : Str) : Bool := stopWordsFrom none l

/-! ## Operations and runs -/

/-- An operation issued to a collaborator, with its arguments. -/
inductive Op where
  | clone (url dir : Str) (options : List Str)
  | remote (args : List Str)
  | getRemotes
  | addRemote (name url : Str)
  | listRemote (args : List Str)
  | fetch (remoteName : Str)
  | push (args : List Str)
  | diff (args : List Str)
  | createChatCompletion (prompt : Str)
  deriving DecidableEq, Repr

/-- The observable behaviour of an `async` function: the operations issued, in
order, and the value it resolves to or the message of the error it throws. -/
structure Run (α : Type) where
  trace : List Op
  result : Except Str α

namespace Run

/-- A computation that issues nothing and resolves to `a`. -/
def ret {α : Type} (a : α) : Run α := ⟨[], .ok a⟩

/-- The statement `throw new Error(msg)`. -/
def fail {α : Type} (msg : Str) : Run α := ⟨[], .error msg⟩

/-- Sequencing of awaited steps: a throw ends the sequence. -/
def andThen {α β : Type} (m : Run α) (f : α → Run β) : Run β :=
  match m.result with
  | .error e => ⟨m.trace, .error e⟩
  | .ok a => ⟨m.trace ++ (f a).trace, (f a).result⟩

/-- The statement `try { m } catch (e) { h e }`. -/
def attempt {α : Type} (m : Run α) (h : Str → Run α) : Run α :=
  match m.result with
  | .error e => ⟨m.trace ++ (h e).trace, (h e).result⟩
  | .ok a => ⟨m.trace, .ok a⟩

/-- One awaited call to a collaborator. -/
def perform {α : Type} (op : Op) (outcome : Except Str α) : Run α := ⟨[op], outcome⟩

end Run

/-! ## The outside world -/

/-- One entry of `getRemotes(true)`: the name and `refs?.fetch`. -/
structure RemoteEntry where
  name : Str
  fetch : Option Str

/-- A push event payload, every field possibly missing. -/
structure Repository where
  name : Option Str
  clone_url : Option Str

/-- The webhook payload. -/
structure Payload where
  repository : Option Repository
  ref : Option Str
  before : Option Str
  after : Option Str

/-- The expression `payload?.repository?.name`. -/
def repositoryName (payload : Option Payload) : Option Str :=
  (payload.bind fun p => p.repository).bind fun r => r.name

/-- The expression `payload?.repository?.clone_url`. -/
def repositoryCloneUrl (payload : Option Payload) : Option Str :=
  (payload.bind fun p => p.repository).bind fun r => r.clone_url

/-- The answers of the collaborators. `join` is `path.join`; `openai` is the
module-level client, `none` when `OPENAI_API_KEY` is missing, and otherwise
maps the prompt to `chat?.data?.choices?.[0]?.message?.content` or to the
error thrown by the call. -/
structure World where
  LOCAL_REPOS_ROOT : Str
  join : Str → Str → Str
  existsSync : Str → Bool
  CLIENT_REMOTE_PREFIX : Option Str
  openai : Option (Str → Except Str (Option Str))
  clone : Str → Str → List Str → Except Str Unit
  remote : List Str → Except Str Unit
  getRemotes : Except Str (List RemoteEntry)
  addRemote : Str → Str → Except Str Unit
  listRemote : List Str → Except Str Str
  fetch : Str → Except Str Unit
  push : List Str → Except Str Unit
  diff : List Str → Except Str Str

/-! ## The program -/

/-- Lines 62-66: the URL of the `client` remote. -/
def clientRemoteUrl (rawClientPrefix repoName : Str) : Str :=
  let clientPrefix : Str :=
    if List.isPrefixOf (α := Char) "git@github.com:" rawClientPrefix then
      "https://github.com/".toList ++ rawClientPrefix.drop 15
    else rawClientPrefix
  let clientPrefix : Str :=
    if !List.isSuffixOf (α := Char) "/" clientPrefix then clientPrefix ++ "/".toList
    else clientPrefix
  clientPrefix ++ repoName ++ ".git".toList

/-- The function `ensureRemote(repoGit, name, url)`. -/
def ensureRemote (w : World) (name url : Str) : Run Unit :=
  (Run.perform .getRemotes w.getRemotes).andThen fun remotes =>
    match remotes.find? fun r => r.name == name with
    | none => Run.perform (.addRemote name url) (w.addRemote name url)
    | some existing =>
      if existing.fetch ≠ some url then
        Run.perform (.remote ["set-url", name, url]) (w.remote ["set-url", name, url])
      else Run.ret ()

/-- The prompt sent to the chat-completion client. -/
def buildPrompt (lines : List Str) : Str :=
  List.intercalate (α := Char) "\n"
    ([("You are a language detector. Respond only with \"true\" if ANY of the following lines is written in Bahasa Indonesia, otherwise respond \"false\"." : Str),
      ("" : Str)] ++ lines.map fun l => "- ".toList ++ l)

/-- The function `detectIndonesianComments(repoGit, payload)`. -/
def detectIndonesianComments (w : World) (payload : Option Payload) : Run Bool :=
  let before := payload.bind fun p => p.before
  let after := payload.bind fun p => p.after
  if !truthy before || !truthy after then Run.ret false
  else
    let range : Str := before.getD [] ++ "..".toList ++ after.getD []
    (Run.attempt
        ((Run.perform (.diff [range]) (w.diff [range])).andThen fun d => Run.ret (some d))
        fun _ => Run.ret none).andThen fun fetched =>
      match fetched with
      | none => Run.ret false
      | some diffText =>
        let lines := commentLines diffText
        if lines.length = 0 then Run.ret false
        else if lines.any stopWordsTest then Run.ret true
        else
          match w.openai with
          | none => Run.ret false
          | some client =>
            Run.attempt
              ((Run.perform (.createChatCompletion (buildPrompt lines))
                  (client (buildPrompt lines))).andThen fun content =>
                let answer := content.map fun c => jsToLowerCase (jsTrim c)
                Run.ret (answer == some "true".toList))
              fun _ => Run.ret false

/-- The function `syncRepository(payload)`. -/
def syncRepository (w : World) (payload : Option Payload) : Run Unit :=
  let repoName := repositoryName payload
  let giteaCloneUrl := repositoryCloneUrl payload
  if !truthy repoName || !truthy giteaCloneUrl then
    Run.fail "Repository information not found on payload"
  else
    let repoName := repoName.getD []
    let giteaCloneUrl := giteaCloneUrl.getD []
    let repoDir := w.join w.LOCAL_REPOS_ROOT repoName
    (if !w.existsSync repoDir then
        Run.perform (.clone giteaCloneUrl repoDir ["--mirror"])
          (w.clone giteaCloneUrl repoDir ["--mirror"])
      else Run.ret ()).andThen fun _ =>
    (Run.perform (.remote ["set-url", "origin", giteaCloneUrl])
        (w.remote ["set-url", "origin", giteaCloneUrl])).andThen fun _ =>
    let rawClientPrefix := w.CLIENT_REMOTE_PREFIX
    if !truthy rawClientPrefix then
      Run.fail "CLIENT_REMOTE_PREFIX is not configured in environment"
    else
      (ensureRemote w "client" (clientRemoteUrl (rawClientPrefix.getD []) repoName)).andThen
        fun _ =>
      (Run.attempt (Run.perform (.listRemote ["--heads", "origin"])
          (w.listRemote ["--heads", "origin"])) fun _ => Run.ret []).andThen fun originRefs =>
      (if (jsTrim originRefs).isEmpty then
          Run.attempt
            ((Run.perform (.fetch "client") (w.fetch "client")).andThen fun _ =>
              Run.perform (.push ["--mirror", "origin"]) (w.push ["--mirror", "origin"]))
            fun _ => Run.ret ()
        else Run.ret ()).andThen fun _ =>
      (Run.perform (.fetch "origin") (w.fetch "origin")).andThen fun _ =>
      (detectIndonesianComments w payload).andThen fun hasIndonesian =>
      if hasIndonesian then
        let ref := payload.bind fun p => p.ref
        let branchRef : Str := if truthy ref then ref.getD [] else []
        let branchName := (jsSplit '/' branchRef).getLast?
        let before := payload.bind fun p => p.before
        Run.attempt
          (if truthy before && truthy branchName then
            Run.perform
              (.push ["--force", "origin",
                before.getD [] ++ ":refs/heads/".toList ++ branchName.getD []])
              (w.push ["--force", "origin",
                before.getD [] ++ ":refs/heads/".toList ++ branchName.getD []])
          else Run.ret ())
          fun _ => Run.ret ()
      else
        Run.attempt (Run.perform (.push ["--mirror", "client"]) (w.push ["--mirror", "client"]))
          fun _ => Run.ret ()

/-! ## Stages of `syncRepository`

The body of `syncRepository` is one sequence of awaited steps. For the proofs
it is cut into the stages of the state machine: what precedes the verdict
(`setup`) and what follows it (`afterVerdict`). -/

/-- Lines 49-52: the clone of a mirror that is not on disk yet. -/
def mirrorStage (w : World) (giteaCloneUrl repoName : Str) : Run Unit :=
  if !w.existsSync (w.join w.LOCAL_REPOS_ROOT repoName) then
    Run.perform (.clone giteaCloneUrl (w.join w.LOCAL_REPOS_ROOT repoName) ["--mirror"])
      (w.clone giteaCloneUrl (w.join w.LOCAL_REPOS_ROOT repoName) ["--mirror"])
  else Run.ret ()

/-- Line 56: the URL of `origin` is applied. -/
def originStage (w : World) (giteaCloneUrl : Str) : Run Unit :=
  Run.perform (.remote ["set-url", "origin", giteaCloneUrl])
    (w.remote ["set-url", "origin", giteaCloneUrl])

/-- Lines 69-72: the heads of `origin`, `''` when the listing fails. -/
def listStage (w : World) : Run Str :=
  Run.attempt (Run.perform (.listRemote ["--heads", "origin"])
    (w.listRemote ["--heads", "origin"])) fun _ => Run.ret []

/-- Lines 73-83: the seeding of an empty `origin` from `client`. -/
def seedStage (w : World) (originRefs : Str) : Run Unit :=
  if (jsTrim originRefs).isEmpty then
    Run.attempt
      ((Run.perform (.fetch "client") (w.fetch "client")).andThen fun _ =>
        Run.perform (.push ["--mirror", "origin"]) (w.push ["--mirror", "origin"]))
      fun _ => Run.ret ()
  else Run.ret ()

/-- Line 85: the fetch from `origin`. -/
def fetchStage (w : World) : Run Unit :=
  Run.perform (.fetch "origin") (w.fetch "origin")

/-- Lines 88-117: the reset of the branch or the mirror push, by verdict. -/
def afterVerdict (w : World) (payload : Option Payload) (hasIndonesian : Bool) : Run Unit :=
  if hasIndonesian then
    let ref := payload.bind fun p => p.ref
    let branchRef : Str := if truthy ref then ref.getD [] else []
    let branchName := (jsSplit '/' branchRef).getLast?
    let before := payload.bind fun p => p.before
    Run.attempt
      (if truthy before && truthy branchName then
        Run.perform
          (.push ["--force", "origin",
            before.getD [] ++ ":refs/heads/".toList ++ branchName.getD []])
          (w.push ["--force", "origin",
            before.getD [] ++ ":refs/heads/".toList ++ branchName.getD []])
      else Run.ret ())
      fun _ => Run.ret ()
  else
    Run.attempt (Run.perform (.push ["--mirror", "client"]) (w.push ["--mirror", "client"]))
      fun _ => Run.ret ()

/-- Lines 67-117, for a payload with name `repoName` and a configured prefix. -/
def configuredStage (w : World) (payload : Option Payload) (rawClientPrefix repoName : Str) :
    Run Unit :=
  (ensureRemote w "client" (clientRemoteUrl rawClientPrefix repoName)).andThen fun _ =>
  (listStage w).andThen fun originRefs =>
  (seedStage w originRefs).andThen fun _ =>
  (fetchStage w).andThen fun _ =>
  (detectIndonesianComments w payload).andThen fun hasIndonesian =>
  afterVerdict w payload hasIndonesian

/-- Lines 149-194: the verdict on a diff that was computed. -/
def classify (w : World) (diffText : Str) : Run Bool :=
  let lines := commentLines diffText
  if lines.length = 0 then Run.ret false
  else if lines.any stopWordsTest then Run.ret true
  else
    match w.openai with
    | none => Run.ret false
    | some client =>
      Run.attempt
        ((Run.perform (.createChatCompletion (buildPrompt lines))
            (client (buildPrompt lines))).andThen fun content =>
          let answer := content.map fun c => jsToLowerCase (jsTrim c)
          Run.ret (answer == some "true".toList))
        fun _ => Run.ret false

/-- The range `before..after` handed to `diff`. -/
def diffRange (payload : Option Payload) : Str :=
  (payload.bind fun p => p.before).getD [] ++ "..".toList ++
    (payload.bind fun p => p.after).getD []

/-- The value bound to `originRefs` at line 73. -/
def originRefs (w : World) : Str := (w.listRemote ["--heads", "origin"]).toOption.getD []

/-- The value bound to `hasIndonesian` at line 87. -/
def verdict (w : World) (payload : Option Payload) : Bool :=
  (detectIndonesianComments w payload).result.toOption.getD false

/-- The value bound to `branchName` at line 90. -/
def branchName (payload : Option Payload) : Option Str :=
  (jsSplit '/'
    (if truthy (payload.bind fun p => p.ref) then (payload.bind fun p => p.ref).getD []
      else [])).getLast?

/-- The operations that precede the verdict when no stage throws. -/
def preTrace (w : World) (rawClientPrefix repoName cloneUrl : Str) : List Op :=
  (mirrorStage w cloneUrl repoName).trace ++ (originStage w cloneUrl).trace ++
    (ensureRemote w "client" (clientRemoteUrl rawClientPrefix repoName)).trace ++
    (listStage w).trace ++ (seedStage w (originRefs w)).trace ++ (fetchStage w).trace

/-- The operations issued when every stage before the verdict has succeeded. -/
def fullTrace (w : World) (payload : Option Payload) (rawClientPrefix repoName cloneUrl : Str) :
    List Op :=
  preTrace w rawClientPrefix repoName cloneUrl ++ (detectIndonesianComments w payload).trace ++
    (afterVerdict w payload (verdict w payload)).trace

/-- The remote a `push` addresses: its first argument that is not an option. -/
def pushTarget (args : List Str) : Option Str :=
  args.find? fun a => !List.isPrefixOf (α := Char) "-" a

/-- A push to the `client` remote. -/
def isClientPush : Op → Bool
  | .push args => pushTarget args == some "client".toList
  | _ => false

/-- A push to `origin` with `--force`. -/
def isForcePushToOrigin : Op → Bool
  | .push args => args.contains "--force".toList && pushTarget args == some "origin".toList
  | _ => false

/-! ## The words of the specification -/

/-- A candidate comment line of a diff: the content, marker removed and
trimmed, of a line that starts with `+` but not with `+++`, when that content
begins with `//`, `#`, `*` or `/*`. -/
def IsCandidate (diffText content : Str) : Prop :=
  ∃ line ∈ jsSplit '\n' diffText,
    "+".toList <+: line ∧ ¬ "+++".toList <+: line ∧ content = jsTrim (line.drop 1) ∧
      ("//".toList <+: content ∨ "#".toList <+: content ∨ "*".toList <+: content ∨
        "/*".toList <+: content)

/-- The line contains `word` as a whole word in any letter case: an occurrence
that lower-cases to `word` and has no word character (letter, digit or
underscore) directly before or directly after it. -/
def ContainsWholeWord (word line : Str) : Prop :=
  ∃ pre mid post, line = pre ++ mid ++ post ∧ mid.map Char.toLower = word ∧
    (∀ c, pre.getLast? = some c → isWordChar c = false) ∧
    (∀ c, post.head? = some c → isWordChar c = false)

/-! ## Sample events -/

/-- A push to `main` of the repository `demo`, from commit `aaa` to `bbb`. -/
def samplePayload : Payload :=
  { repository := some { name := some "demo", clone_url := some "https://gitea.test/acme/demo.git" }
    ref := some "refs/heads/main"
    before := some "aaa"
    after := some "bbb" }

/-- A world in which the mirror is on disk, every call succeeds, `origin` has
one head and the pushed range adds the line `// untuk testing`. -/
def sampleWorld : World :=
  { LOCAL_REPOS_ROOT := "repos"
    join := fun root name => root ++ "/".toList ++ name
    existsSync := fun _ => true
    CLIENT_REMOTE_PREFIX := some "git@github.com:acme"
    openai := none
    clone := fun _ _ _ => .ok ()
    remote := fun _ => .ok ()
    getRemotes := .ok []
    addRemote := fun _ _ => .ok ()
    listRemote := fun _ => .ok "0a1b\trefs/heads/main\n"
    fetch := fun _ => .ok ()
    push := fun _ => .ok ()
    diff := fun _ => .ok "+++ b/app.js\n+// untuk testing\n+run();" }

/-- The sample world with a diff free of stop-words and a classifier that
answers ` True`. -/
def classifierWorld : World :=
  { sampleWorld with
    diff := fun _ => .ok "+++ b/app.js\n+// halo dunia\n+run();"
    openai := some fun _ => .ok (some " True\n") }

/-- A world without destination prefix in which the mirror is not on disk. -/
def unconfiguredWorld : World :=
  { sampleWorld with
    CLIENT_REMOTE_PREFIX := none
    existsSync := fun _ => false }

/-- The sample world in which every `remote` command fails. -/
def originFailsWorld : World :=
  { sampleWorld with remote := fun _ => .error "fatal: could not set url" }

/-- A push of a new branch: `before` and `after` are missing. -/
def newBranchPayload : Payload :=
  { samplePayload with before := none, after := none }

/-- The sample world in which `origin` advertises no head. -/
def emptyOriginWorld : World :=
  { sampleWorld with listRemote := fun _ => .ok " \n" }

/-- The URL of the `client` remote as the specification words it: a leading
`git@<host>:`, for any host, becomes `https://<host>/`, a `/` is appended
unless the result ends with one, then the name and `.git` follow. -/
def claimedClientUrl (rawClientPrefix repoName : Str) : Str :=
  let afterUser := rawClientPrefix.drop 4
  let rewritten : Str :=
    if List.isPrefixOf (α := Char) "git@" rawClientPrefix && afterUser.contains ':' then
      "https://".toList ++ afterUser.takeWhile (fun c => c != ':') ++ "/".toList ++
        (afterUser.dropWhile fun c => c != ':').drop 1
    else rawClientPrefix
  let slashed : Str :=
    if rewritten.getLast? = some '/' then rewritten else rewritten ++ "/".toList
  slashed ++ repoName ++ ".git".toList

/-- A push to the branch `feature/x`. -/
def slashPayload : Payload :=
  { samplePayload with ref := some "refs/heads/feature/x" }

/-- A payload whose repository name is the empty string. -/
def namelessPayload : Payload :=
  { samplePayload with
    repository := some { name := some [], clone_url := some "https://gitea.test/acme/demo.git" } }

/-- A world in which every call that the code wraps in `try` fails: the
listing of heads, the seed fetch, the diff and every push. The calls that are
not wrapped succeed. -/
def caughtFailuresWorld : World :=
  { sampleWorld with
    listRemote := fun _ => .error "fatal: unable to access origin"
    fetch := fun name =>
      if name = "origin".toList then .ok () else .error "fatal: unable to access client"
    diff := fun _ => .error "fatal: bad revision"
    push := fun _ => .error "fatal: remote rejected" }

/-! ## Missing values -/

theorem truthy_eq_false_iff (x : Option Str) : truthy x = false ↔ x = none ∨ x = some [] := by
  cases x with
  | none => simp [truthy]
  | some s => cases s <;> simp [truthy]

theorem truthy_eq_true_iff (x : Option Str) : truthy x = true ↔ ∃ s, x = some s ∧ s ≠ [] := by
  cases x with
  | none => simp [truthy]
  | some s => cases s <;> simp [truthy]

/-! ## Laws of runs -/

namespace Run

theorem andThen_ok {α β : Type} {m : Run α} {a : α} (f : α → Run β) (h : m.result = .ok a) :
    m.andThen f = ⟨m.trace ++ (f a).trace, (f a).result⟩ := by
  simp [andThen, h]

theorem andThen_error {α β : Type} {m : Run α} {e : Str} (f : α → Run β)
    (h : m.result = .error e) : m.andThen f = ⟨m.trace, .error e⟩ := by
  simp [andThen, h]

theorem andThen_assoc {α β γ : Type} (m : Run α) (f : α → Run β) (g : β → Run γ) :
    (m.andThen f).andThen g = m.andThen fun a => (f a).andThen g := by
  rcases m with ⟨t, r⟩
  cases r with
  | error e => simp [andThen]
  | ok a =>
    simp only [andThen]
    cases (f a).result <;> simp

theorem mem_trace_andThen {α β : Type} (m : Run α) (f : α → Run β) (op : Op) :
    op ∈ (m.andThen f).trace ↔ op ∈ m.trace ∨ ∃ a, m.result = .ok a ∧ op ∈ (f a).trace := by
  rcases m with ⟨t, r⟩
  cases r <;> simp [andThen]

theorem perform_trace {α : Type} (op : Op) (o : Except Str α) : (perform op o).trace = [op] :=
  rfl

theorem perform_result {α : Type} (op : Op) (o : Except Str α) : (perform op o).result = o :=
  rfl

end Run

/-- With a name, a clone URL and a prefix (all non-empty), the body of
`syncRepository` is the sequence of its stages. -/
theorem syncRepository_stages (w : World) (payload : Option Payload) (n u : Str)
    (hn : repositoryName payload = some n) (hn0 : n ≠ [])
    (hu : repositoryCloneUrl payload = some u) (hu0 : u ≠ []) :
    syncRepository w payload =
      (mirrorStage w u n).andThen fun _ =>
      (originStage w u).andThen fun _ =>
      if !truthy w.CLIENT_REMOTE_PREFIX then
        Run.fail "CLIENT_REMOTE_PREFIX is not configured in environment"
      else configuredStage w payload (w.CLIENT_REMOTE_PREFIX.getD []) n := by
  have htn : truthy (some n) = true := (truthy_eq_true_iff _).2 ⟨n, rfl, hn0⟩
  have htu : truthy (some u) = true := (truthy_eq_true_iff _).2 ⟨u, rfl, hu0⟩
  simp only [syncRepository, hn, hu, htn, htu]
  rfl

/-! ## The stages one by one -/

theorem Run.attempt_ret_result {α : Type} (m : Run α) (x : α) :
    (Run.attempt m fun _ => Run.ret x).result = .ok (m.result.toOption.getD x) := by
  rcases m with ⟨t, r⟩
  cases r <;> simp [Run.attempt, Run.ret, Except.toOption]

theorem Run.attempt_ret_trace {α : Type} (m : Run α) (x : α) :
    (Run.attempt m fun _ => Run.ret x).trace = m.trace := by
  rcases m with ⟨t, r⟩
  cases r <;> simp [Run.attempt, Run.ret]

theorem listStage_trace (w : World) : (listStage w).trace = [.listRemote ["--heads", "origin"]] := by
  simp [listStage, Run.attempt_ret_trace, Run.perform]

theorem listStage_result (w : World) :
    (listStage w).result = .ok ((w.listRemote ["--heads", "origin"]).toOption.getD []) := by
  simp [listStage, Run.attempt_ret_result, Run.perform]

theorem seedStage_result (w : World) (refs : Str) : (seedStage w refs).result = .ok () := by
  unfold seedStage
  split
  · rw [Run.attempt_ret_result]
  · rfl

theorem seedStage_trace (w : World) (refs : Str) :
    (seedStage w refs).trace =
      if (jsTrim refs).isEmpty then
        Op.fetch "client" :: (if (w.fetch "client").isOk then [Op.push ["--mirror", "origin"]] else [])
      else [] := by
  unfold seedStage
  split
  · rw [Run.attempt_ret_trace]
    cases h : w.fetch "client" <;> simp [Run.andThen, Run.perform, h, Except.isOk, Except.toBool]
  · rfl

theorem afterVerdict_result (w : World) (payload : Option Payload) (b : Bool) :
    (afterVerdict w payload b).result = .ok () := by
  unfold afterVerdict
  split
  · simp only [Run.attempt_ret_result]
  · simp only [Run.attempt_ret_result]

theorem detect_result (w : World) (payload : Option Payload) :
    ∃ b, (detectIndonesianComments w payload).result = .ok b := by
  unfold detectIndonesianComments
  simp only
  split
  · exact ⟨_, rfl⟩
  · cases hd : w.diff _ with
    | error e => simp [Run.attempt, Run.andThen, Run.perform, Run.ret, hd]
    | ok d =>
      simp only [Run.attempt, Run.andThen, Run.perform, Run.ret, hd]
      split
      · exact ⟨_, rfl⟩
      · split
        · exact ⟨_, rfl⟩
        · split
          · exact ⟨_, rfl⟩
          · rename_i client _
            cases hc : client (buildPrompt (commentLines d)) <;> simp [hc]

/-! ## Invalid payloads -/

/-- C1: when `repository.name` or `repository.clone_url` is `undefined`, `null`
or `''`, `syncRepository` throws the invalid-payload error and has issued no
operation at all (no clone, remote, listing, fetch, diff or push). -/
theorem syncRepository_invalid_payload (w : World) (payload : Option Payload)
    (h : repositoryName payload = none ∨ repositoryName payload = some [] ∨
      repositoryCloneUrl payload = none ∨ repositoryCloneUrl payload = some []) :
    (syncRepository w payload).trace = [] ∧
      (syncRepository w payload).result =
        .error "Repository information not found on payload".toList := by
  have hc : (!truthy (repositoryName payload) || !truthy (repositoryCloneUrl payload)) = true := by
    rcases h with h | h | h | h <;> simp [h, truthy]
  simp [syncRepository, hc, Run.fail]

theorem syncRepository_invalid_payload_witness :
    (syncRepository sampleWorld (some namelessPayload)).trace = [] ∧
      (syncRepository sampleWorld (some namelessPayload)).result =
        .error "Repository information not found on payload".toList :=
  syncRepository_invalid_payload sampleWorld (some namelessPayload) (Or.inr (Or.inl rfl))

/-! ## The detection, outcome by outcome -/

theorem detect_absent (w : World) (payload : Option Payload)
    (h : truthy (payload.bind fun p => p.before) = false ∨
      truthy (payload.bind fun p => p.after) = false) :
    detectIndonesianComments w payload = ⟨[], .ok false⟩ := by
  have hc : (!truthy (payload.bind fun p => p.before) ||
      !truthy (payload.bind fun p => p.after)) = true := by
    rcases h with h | h <;> simp [h]
  simp only [detectIndonesianComments, hc, if_true]
  rfl

theorem detect_diff_error (w : World) (payload : Option Payload) (e : Str)
    (hb : truthy (payload.bind fun p => p.before) = true)
    (ha : truthy (payload.bind fun p => p.after) = true)
    (hd : w.diff [diffRange payload] = .error e) :
    detectIndonesianComments w payload = ⟨[.diff [diffRange payload]], .ok false⟩ := by
  simp only [diffRange] at hd
  simp only [detectIndonesianComments, hb, ha, Run.attempt, Run.andThen, Run.perform, Run.ret, hd,
    diffRange, Bool.not_true, Bool.or_self, Bool.false_eq_true, if_false, List.append_nil]

theorem detect_diff_ok (w : World) (payload : Option Payload) (d : Str)
    (hb : truthy (payload.bind fun p => p.before) = true)
    (ha : truthy (payload.bind fun p => p.after) = true)
    (hd : w.diff [diffRange payload] = .ok d) :
    detectIndonesianComments w payload =
      ⟨.diff [diffRange payload] :: (classify w d).trace, (classify w d).result⟩ := by
  simp only [diffRange] at hd
  simp only [detectIndonesianComments, hb, ha, Run.attempt, Run.andThen, Run.perform, Run.ret, hd,
    diffRange, Bool.not_true, Bool.or_self, Bool.false_eq_true, if_false, List.append_nil,
    classify]
  rfl

theorem classify_stop_word (w : World) (d : Str)
    (h : (commentLines d).any stopWordsTest = true) : classify w d = ⟨[], .ok true⟩ := by
  have hne : ¬ (commentLines d).length = 0 := by
    intro h0
    rw [List.length_eq_zero] at h0
    rw [h0] at h
    simp at h
  simp only [classify, hne, if_false, h, if_true]
  rfl

theorem classify_client (w : World) (d : Str) (client : Str → Except Str (Option Str))
    (hne : commentLines d ≠ [])
    (h : (commentLines d).any stopWordsTest = false) (hc : w.openai = some client) :
    (classify w d).trace = [.createChatCompletion (buildPrompt (commentLines d))] ∧
    ((classify w d).result = .ok true ∨ (classify w d).result = .ok false) ∧
    ((classify w d).result = .ok true ↔
      ∃ c, client (buildPrompt (commentLines d)) = .ok (some c) ∧
        jsToLowerCase (jsTrim c) = "true".toList) := by
  have hne : ¬ (commentLines d).length = 0 := by
    rwa [List.length_eq_zero]
  simp only [classify, hne, if_false, h, hc, Bool.false_eq_true]
  cases hr : client (buildPrompt (commentLines d)) with
  | error e => simp [Run.attempt, Run.andThen, Run.perform, Run.ret, hr]
  | ok content =>
    cases content with
    | none => simp [Run.attempt, Run.andThen, Run.perform, Run.ret, hr]
    | some c =>
      by_cases hcmp : jsToLowerCase (jsTrim c) = "true".toList
      · simp [Run.attempt, Run.andThen, Run.perform, Run.ret, hr, hcmp]
      · have : ¬ jsToLowerCase (jsTrim c) = ['t', 'r', 'u', 'e'] := hcmp
        simp [Run.attempt, Run.andThen, Run.perform, Run.ret, hr, this]

theorem toUpper_of_toLower_isLower (c p : Char) (h : c.toLower = p) (hp : p.isLower = true) :
    p.toUpper = c.toUpper ∧ isWordChar c = true := by
  by_cases hu : 65 ≤ c.toNat ∧ c.toNat ≤ 90
  · obtain ⟨h1, h2⟩ := hu
    have hc : c = Char.ofNat c.toNat := (Char.ofNat_toNat c).symm
    generalize c.toNat = n at h1 h2 hc
    subst hc
    subst h
    interval_cases n <;> decide
  · have : c.toLower = c := by
      simp only [Char.toLower]
      rw [if_neg hu]
    rw [this] at h
    subst h
    refine ⟨rfl, ?_⟩
    simp [isWordChar, Char.isAlphanum, Char.isAlpha, hp]

/-! ## The stop-word expression -/

theorem stopWordList_letters : ∀ w ∈ stopWordList, w ≠ [] ∧ ∀ p ∈ w, p.isLower = true := by
  decide

theorem matchLiteral_occurrence (word : Str) :
    ∀ (mid post : Str) (prev : Option Char), mid.map Char.toLower = word →
      (∀ p ∈ word, p.isLower = true) →
      ∃ last, matchLiteral word prev (mid ++ post) = some (last, post) ∧
        ((last = prev ∧ mid = []) ∨ ∃ c, last = some c ∧ isWordChar c = true) := by
  induction word with
  | nil =>
    intro mid post prev hm _
    have : mid = [] := by simpa using hm
    subst this
    exact ⟨prev, rfl, Or.inl ⟨rfl, rfl⟩⟩
  | cons p ps ih =>
    intro mid post prev hm hl
    cases mid with
    | nil => simp at hm
    | cons c cs =>
      simp only [List.map_cons, List.cons.injEq] at hm
      obtain ⟨hc, hcs⟩ := hm
      obtain ⟨hup, hw⟩ := toUpper_of_toLower_isLower c p hc (hl p (List.mem_cons_self _ _))
      obtain ⟨last, hlast, hcase⟩ :=
        ih cs post (some c) hcs fun q hq => hl q (List.mem_cons_of_mem _ hq)
      refine ⟨last, ?_, Or.inr ?_⟩
      · simp only [List.cons_append, matchLiteral, hup, if_true]
        exact hlast
      · rcases hcase with ⟨h1, _⟩ | h
        · exact ⟨c, h1, hw⟩
        · exact h

theorem stopWordsAt_occurrence (word mid post : Str) (prev : Option Char)
    (hword : word ∈ stopWordList) (hm : mid.map Char.toLower = word)
    (hprev : ∀ c, prev = some c → isWordChar c = false)
    (hpost : ∀ c, post.head? = some c → isWordChar c = false) :
    stopWordsAt prev (mid ++ post) = true := by
  obtain ⟨hne, hl⟩ := stopWordList_letters word hword
  obtain ⟨last, hlast, hcase⟩ := matchLiteral_occurrence word mid post prev hm hl
  have hmid : mid ≠ [] := by
    intro h0
    subst h0
    exact hne (by simpa using hm.symm)
  have hpv : (prev.map isWordChar).getD false = false := by
    cases prev with
    | none => rfl
    | some c => simpa using hprev c rfl
  have hpo : (post.head?.map isWordChar).getD false = false := by
    cases hh : post.head? with
    | none => rfl
    | some c => simpa using hpost c hh
  obtain ⟨c, cs, rfl⟩ := List.exists_cons_of_ne_nil hmid
  have hcw : isWordChar c = true :=
    (toUpper_of_toLower_isLower c (c.toLower) rfl
      (hl _ (by rw [← hm]; simp))).2
  rcases hcase with ⟨_, h0⟩ | ⟨c', hc', hw'⟩
  · exact absurd h0 hmid
  · simp only [stopWordsAt, Bool.and_eq_true, List.any_eq_true]
    refine ⟨?_, word, hword, ?_⟩
    · simp [wordBoundary, hpv, hcw]
    · rw [hlast, hc']
      simp [wordBoundary, hpo, hw']

theorem stopWordsFrom_occurrence (word mid post : Str) (hword : word ∈ stopWordList)
    (hm : mid.map Char.toLower = word)
    (hpost : ∀ c, post.head? = some c → isWordChar c = false) :
    ∀ (pre : Str) (prev : Option Char),
      (pre = [] → ∀ c, prev = some c → isWordChar c = false) →
      (∀ c, pre.getLast? = some c → isWordChar c = false) →
      stopWordsFrom prev (pre ++ mid ++ post) = true := by
  have hmid : mid ≠ [] := by
    intro h0
    subst h0
    exact (stopWordList_letters word hword).1 (by simpa using hm.symm)
  obtain ⟨m, ms, rfl⟩ := List.exists_cons_of_ne_nil hmid
  intro pre
  induction pre with
  | nil =>
    intro prev hprev _
    have h := stopWordsAt_occurrence word (m :: ms) post prev hword hm (hprev rfl) hpost
    simp only [List.nil_append, List.cons_append] at h ⊢
    simp [stopWordsFrom, h]
  | cons a as ih =>
    intro prev _ hlast
    have hrec : stopWordsFrom (some a) (as ++ (m :: ms) ++ post) = true := by
      apply ih
      · intro has c hc
        subst has
        cases hc
        exact hlast a rfl
      · intro c hc
        cases as with
        | nil => simp at hc
        | cons b bs => exact hlast c (by simpa [List.getLast?_cons_cons] using hc)
    simp only [List.cons_append, List.append_assoc] at hrec ⊢
    simp [stopWordsFrom, hrec]

theorem stopWordsTest_of_wholeWord (word line : Str) (hword : word ∈ stopWordList)
    (h : ContainsWholeWord word line) : stopWordsTest line = true := by
  obtain ⟨pre, mid, post, rfl, hm, hpre, hpost⟩ := h
  exact stopWordsFrom_occurrence word mid post hword hm hpost pre none (fun _ c hc => by cases hc)
    hpre

theorem toLower_toUpper_of_isLower (p : Char) (hp : p.isLower = true) : p.toUpper.toLower = p := by
  have h1 : 97 ≤ p.toNat ∧ p.toNat ≤ 122 := by
    simpa [Char.isLower, Char.toNat, UInt32.le_def, Nat.le_antisymm_iff] using hp
  obtain ⟨h1, h2⟩ := h1
  have hc : p = Char.ofNat p.toNat := (Char.ofNat_toNat p).symm
  generalize p.toNat = n at h1 h2 hc
  subst hc
  interval_cases n <;> decide

theorem toLower_toUpper (c : Char) : c.toUpper.toLower = c.toLower := by
  by_cases hl : 97 ≤ c.toNat ∧ c.toNat ≤ 122
  · obtain ⟨h1, h2⟩ := hl
    have hc : c = Char.ofNat c.toNat := (Char.ofNat_toNat c).symm
    generalize c.toNat = n at h1 h2 hc
    subst hc
    interval_cases n <;> decide
  · have : c.toUpper = c := by
      simp only [Char.toUpper]
      rw [if_neg hl]
    rw [this]

theorem toLower_of_toUpper_eq (c p : Char) (hp : p.isLower = true) (h : p.toUpper = c.toUpper) :
    c.toLower = p := by
  rw [← toLower_toUpper c, ← h, toLower_toUpper_of_isLower p hp]

theorem matchLiteral_some (word : Str) :
    ∀ (s rest : Str) (prev last : Option Char), matchLiteral word prev s = some (last, rest) →
      (∀ p ∈ word, p.isLower = true) →
      ∃ mid, s = mid ++ rest ∧ mid.map Char.toLower = word ∧
        (word ≠ [] → ∃ c, last = some c ∧ isWordChar c = true) := by
  induction word with
  | nil =>
    intro s rest prev last h _
    simp only [matchLiteral, Option.some.injEq, Prod.mk.injEq] at h
    exact ⟨[], by simp [h.2], rfl, fun hne => absurd rfl hne⟩
  | cons p ps ih =>
    intro s rest prev last h hl
    cases s with
    | nil => simp [matchLiteral] at h
    | cons c cs =>
      simp only [matchLiteral] at h
      by_cases hup : p.toUpper = c.toUpper
      · rw [if_pos hup] at h
        have hp := hl p (List.mem_cons_self _ _)
        have hc : c.toLower = p := toLower_of_toUpper_eq c p hp hup
        have hw : isWordChar c = true := (toUpper_of_toLower_isLower c p hc hp).2
        obtain ⟨mid, hmid, hmap, hlast⟩ :=
          ih cs rest (some c) last h fun q hq => hl q (List.mem_cons_of_mem _ hq)
        refine ⟨c :: mid, by simp [hmid], by simp [hc, hmap], fun _ => ?_⟩
        cases ps with
        | nil =>
          simp only [matchLiteral, Option.some.injEq, Prod.mk.injEq] at h
          exact ⟨c, h.1.symm, hw⟩
        | cons q qs => exact hlast (by simp)
      · rw [if_neg hup] at h
        cases h

theorem stopWordsAt_true (prev : Option Char) (s : Str) (h : stopWordsAt prev s = true) :
    ∃ word ∈ stopWordList, ∃ mid post, s = mid ++ post ∧ mid.map Char.toLower = word ∧
      (∀ c, prev = some c → isWordChar c = false) ∧
      (∀ c, post.head? = some c → isWordChar c = false) := by
  simp only [stopWordsAt, Bool.and_eq_true, List.any_eq_true] at h
  obtain ⟨hb, word, hword, hm⟩ := h
  obtain ⟨hne, hl⟩ := stopWordList_letters word hword
  cases hml : matchLiteral word prev s with
  | none => simp [hml] at hm
  | some r =>
    obtain ⟨last, rest⟩ := r
    rw [hml] at hm
    simp only at hm
    obtain ⟨mid, hs, hmap, hlast⟩ := matchLiteral_some word s rest prev last hml hl
    obtain ⟨cl, hcl, hwl⟩ := hlast hne
    have hmid : mid ≠ [] := by
      intro h0
      subst h0
      exact hne (by simpa using hmap.symm)
    obtain ⟨m, ms, rfl⟩ := List.exists_cons_of_ne_nil hmid
    have hmw : isWordChar m = true :=
      (toUpper_of_toLower_isLower m (m.toLower) rfl (hl _ (by rw [← hmap]; simp))).2
    refine ⟨word, hword, m :: ms, rest, hs, hmap, ?_, ?_⟩
    · intro c hc
      subst hc hs
      simpa [wordBoundary, hmw] using hb
    · intro c hc
      subst hcl
      simpa [wordBoundary, hwl, hc] using hm

theorem stopWordsFrom_true :
    ∀ (s : Str) (prev : Option Char), stopWordsFrom prev s = true →
      ∃ word ∈ stopWordList, ∃ pre mid post, s = pre ++ mid ++ post ∧
        mid.map Char.toLower = word ∧
        (pre = [] → ∀ c, prev = some c → isWordChar c = false) ∧
        (∀ c, pre.getLast? = some c → isWordChar c = false) ∧
        (∀ c, post.head? = some c → isWordChar c = false) := by
  intro s
  induction s with
  | nil =>
    intro prev h
    obtain ⟨word, hword, mid, post, hs, hmap, hprev, hpost⟩ := stopWordsAt_true prev [] h
    exact ⟨word, hword, [], mid, post, by simpa using hs, hmap, fun _ => hprev,
      fun c hc => by simp at hc, hpost⟩
  | cons a as ih =>
    intro prev h
    simp only [stopWordsFrom, Bool.or_eq_true] at h
    rcases h with h | h
    · obtain ⟨word, hword, mid, post, hs, hmap, hprev, hpost⟩ := stopWordsAt_true prev _ h
      exact ⟨word, hword, [], mid, post, by simpa using hs, hmap, fun _ => hprev,
        fun c hc => by simp at hc, hpost⟩
    · obtain ⟨word, hword, pre, mid, post, hs, hmap, hprev, hpre, hpost⟩ := ih (some a) h
      refine ⟨word, hword, a :: pre, mid, post, by simp [hs], hmap,
        fun h0 => absurd h0 (List.cons_ne_nil _ _), ?_, hpost⟩
      intro c hc
      cases pre with
      | nil =>
        simp only [List.getLast?_singleton, Option.some.injEq] at hc
        subst hc
        exact hprev rfl a rfl
      | cons b bs => exact hpre c (by simpa [List.getLast?_cons_cons] using hc)

/-- The test `stopWords.test(l)` succeeds exactly on the lines that contain a
stop-word as a whole word in any letter case. -/
theorem stopWordsTest_iff (line : Str) :
    stopWordsTest line = true ↔ ∃ word ∈ stopWordList, ContainsWholeWord word line := by
  constructor
  · intro h
    obtain ⟨word, hword, pre, mid, post, hs, hmap, _, hpre, hpost⟩ :=
      stopWordsFrom_true line none h
    exact ⟨word, hword, pre, mid, post, hs, hmap, hpre, hpost⟩
  · rintro ⟨word, hword, h⟩
    exact stopWordsTest_of_wholeWord word line hword h

theorem mem_commentLines_iff (d c : Str) : c ∈ commentLines d ↔ IsCandidate d c := by
  simp only [commentLines, IsCandidate, List.mem_filter, List.mem_map, commentMarker,
    Bool.and_eq_true, Bool.or_eq_true, Bool.not_eq_true', List.isPrefixOf_iff_prefix]
  constructor
  · rintro ⟨⟨line, ⟨hl, hp, hnp⟩, rfl⟩, hm⟩
    refine ⟨line, hl, hp, ?_, rfl, ?_⟩
    · intro hh
      rw [← List.isPrefixOf_iff_prefix] at hh
      rw [hh] at hnp
      cases hnp
    · tauto
  · rintro ⟨line, hl, hp, hnp, rfl, hm⟩
    refine ⟨⟨line, ⟨hl, hp, ?_⟩, rfl⟩, by tauto⟩
    cases hh : List.isPrefixOf (α := Char) "+++".toList line
    · rfl
    · exact absurd (List.isPrefixOf_iff_prefix.1 hh) hnp

/-! ## The classifier -/

/-- C5: when `before` and `after` are present and the diff is computed, a
candidate comment line containing one of the stop-words as a whole word, in any
letter case, makes `detectIndonesianComments` return `true`; the only operation
issued is the diff, so the remote classifier is not invoked, configured or not. -/
theorem detect_stop_word_hit (w : World) (payload : Option Payload) (d content word : Str)
    (hb : truthy (payload.bind fun p => p.before) = true)
    (ha : truthy (payload.bind fun p => p.after) = true)
    (hd : w.diff [diffRange payload] = .ok d)
    (hcand : IsCandidate d content) (hword : word ∈ stopWordList)
    (hocc : ContainsWholeWord word content) :
    (detectIndonesianComments w payload).result = .ok true ∧
      (detectIndonesianComments w payload).trace = [.diff [diffRange payload]] := by
  have hany : (commentLines d).any stopWordsTest = true :=
    List.any_eq_true.2
      ⟨content, (mem_commentLines_iff d content).2 hcand,
        stopWordsTest_of_wholeWord word content hword hocc⟩
  rw [detect_diff_ok w payload d hb ha hd, classify_stop_word w d hany]
  exact ⟨rfl, rfl⟩

theorem detect_stop_word_hit_witness :
    (detectIndonesianComments sampleWorld (some samplePayload)).result = .ok true ∧
      (detectIndonesianComments sampleWorld (some samplePayload)).trace =
        [.diff [diffRange (some samplePayload)]] :=
  detect_stop_word_hit sampleWorld (some samplePayload)
    "+++ b/app.js\n+// untuk testing\n+run();".toList "// untuk testing".toList "untuk".toList
    (by decide) (by decide) rfl
    ⟨"+// untuk testing".toList, by decide, by decide, by decide, by decide, by decide⟩
    (by decide)
    ⟨"// ".toList, "untuk".toList, " testing".toList, by decide, by decide,
      fun c h => by cases h; decide, fun c h => by cases h; decide⟩

/-- C6: with at least one candidate comment line, none containing a stop-word
as a whole word, and a classifier configured, `detectIndonesianComments` returns `true` exactly
when the call succeeds and the content of the first choice, trimmed and
lower-cased, is `true`; every other response (missing content included) and
every error of the call give `false`. -/
theorem detect_remote_verdict (w : World) (payload : Option Payload) (d : Str)
    (client : Str → Except Str (Option Str))
    (hb : truthy (payload.bind fun p => p.before) = true)
    (ha : truthy (payload.bind fun p => p.after) = true)
    (hd : w.diff [diffRange payload] = .ok d)
    (hsome : ∃ content, IsCandidate d content)
    (hnone : ∀ content, IsCandidate d content →
      ∀ word ∈ stopWordList, ¬ ContainsWholeWord word content)
    (hc : w.openai = some client) :
    ((detectIndonesianComments w payload).result = .ok true ↔
        ∃ c, client (buildPrompt (commentLines d)) = .ok (some c) ∧
          jsToLowerCase (jsTrim c) = "true".toList) ∧
      ((¬ ∃ c, client (buildPrompt (commentLines d)) = .ok (some c) ∧
          jsToLowerCase (jsTrim c) = "true".toList) →
        (detectIndonesianComments w payload).result = .ok false) := by
  have hne : commentLines d ≠ [] := by
    obtain ⟨c, hcand⟩ := hsome
    exact List.ne_nil_of_mem ((mem_commentLines_iff d c).2 hcand)
  have hany : (commentLines d).any stopWordsTest = false := by
    rw [List.any_eq_false]
    intro c hmem
    cases htest : stopWordsTest c with
    | false => simp
    | true =>
      obtain ⟨word, hword, hocc⟩ := (stopWordsTest_iff c).1 htest
      exact absurd hocc (hnone c ((mem_commentLines_iff d c).1 hmem) word hword)
  obtain ⟨_, hor, hiff⟩ := classify_client w d client hne hany hc
  rw [detect_diff_ok w payload d hb ha hd]
  refine ⟨hiff, fun hno => ?_⟩
  rcases hor with h | h
  · exact absurd (hiff.1 h) hno
  · exact h

theorem detect_remote_verdict_witness :
    (detectIndonesianComments classifierWorld (some samplePayload)).result = .ok true :=
  (detect_remote_verdict classifierWorld (some samplePayload)
    "+++ b/app.js\n+// halo dunia\n+run();".toList (fun _ => .ok (some " True\n".toList))
    (by decide) (by decide) rfl
    ⟨"// halo dunia".toList, "+// halo dunia".toList, by decide, by decide, by decide, by decide,
      by decide⟩
    (fun content hcand word hword hocc => by
      have hmem := (mem_commentLines_iff _ content).2 hcand
      have hlines : commentLines "+++ b/app.js\n+// halo dunia\n+run();".toList =
          ["// halo dunia".toList] := by decide
      rw [hlines, List.mem_singleton] at hmem
      subst hmem
      have htest := (stopWordsTest_iff _).2 ⟨word, hword, hocc⟩
      revert htest
      decide)
    rfl).1.2 ⟨" True\n".toList, rfl, by decide⟩

/-! ## The pipeline, outcome by outcome -/

theorem detect_result_verdict (w : World) (payload : Option Payload) :
    (detectIndonesianComments w payload).result = .ok (verdict w payload) := by
  obtain ⟨b, hb⟩ := detect_result w payload
  simp [verdict, hb, Except.toOption]

theorem listStage_result_originRefs (w : World) : (listStage w).result = .ok (originRefs w) :=
  listStage_result w

theorem configuredStage_ensure_error (w : World) (payload : Option Payload) (P n e : Str)
    (he : (ensureRemote w "client" (clientRemoteUrl P n)).result = .error e) :
    configuredStage w payload P n =
      ⟨(ensureRemote w "client" (clientRemoteUrl P n)).trace, .error e⟩ := by
  rw [configuredStage, Run.andThen_error _ he]

theorem configuredStage_fetch_error (w : World) (payload : Option Payload) (P n e : Str)
    (he : (ensureRemote w "client" (clientRemoteUrl P n)).result = .ok ())
    (hf : w.fetch "origin" = .error e) :
    configuredStage w payload P n =
      ⟨(ensureRemote w "client" (clientRemoteUrl P n)).trace ++ (listStage w).trace ++
        (seedStage w (originRefs w)).trace ++ (fetchStage w).trace, .error e⟩ := by
  have hfr : (fetchStage w).result = .error e := hf
  rw [configuredStage, Run.andThen_ok _ he, Run.andThen_ok _ (listStage_result_originRefs w),
    Run.andThen_ok _ (seedStage_result w _), Run.andThen_error _ hfr]
  simp

theorem configuredStage_ok (w : World) (payload : Option Payload) (P n : Str)
    (he : (ensureRemote w "client" (clientRemoteUrl P n)).result = .ok ())
    (hf : w.fetch "origin" = .ok ()) :
    configuredStage w payload P n =
      ⟨(ensureRemote w "client" (clientRemoteUrl P n)).trace ++ (listStage w).trace ++
        (seedStage w (originRefs w)).trace ++ (fetchStage w).trace ++
        (detectIndonesianComments w payload).trace ++
        (afterVerdict w payload (verdict w payload)).trace, .ok ()⟩ := by
  have hfr : (fetchStage w).result = .ok () := hf
  rw [configuredStage, Run.andThen_ok _ he, Run.andThen_ok _ (listStage_result_originRefs w),
    Run.andThen_ok _ (seedStage_result w _), Run.andThen_ok _ hfr,
    Run.andThen_ok _ (detect_result_verdict w payload), afterVerdict_result]
  simp

theorem sync_mirror_error (w : World) (payload : Option Payload) (n u e : Str)
    (hn : repositoryName payload = some n) (hn0 : n ≠ [])
    (hu : repositoryCloneUrl payload = some u) (hu0 : u ≠ [])
    (hm : (mirrorStage w u n).result = .error e) :
    syncRepository w payload = ⟨(mirrorStage w u n).trace, .error e⟩ := by
  rw [syncRepository_stages w payload n u hn hn0 hu hu0, Run.andThen_error _ hm]

theorem sync_origin_error (w : World) (payload : Option Payload) (n u e : Str)
    (hn : repositoryName payload = some n) (hn0 : n ≠ [])
    (hu : repositoryCloneUrl payload = some u) (hu0 : u ≠ [])
    (hm : (mirrorStage w u n).result = .ok ())
    (ho : (originStage w u).result = .error e) :
    syncRepository w payload =
      ⟨(mirrorStage w u n).trace ++ (originStage w u).trace, .error e⟩ := by
  rw [syncRepository_stages w payload n u hn hn0 hu hu0, Run.andThen_ok _ hm,
    Run.andThen_error _ ho]

theorem sync_unconfigured (w : World) (payload : Option Payload) (n u : Str)
    (hn : repositoryName payload = some n) (hn0 : n ≠ [])
    (hu : repositoryCloneUrl payload = some u) (hu0 : u ≠ [])
    (hm : (mirrorStage w u n).result = .ok ())
    (ho : (originStage w u).result = .ok ())
    (hp : truthy w.CLIENT_REMOTE_PREFIX = false) :
    syncRepository w payload =
      ⟨(mirrorStage w u n).trace ++ (originStage w u).trace,
        .error "CLIENT_REMOTE_PREFIX is not configured in environment".toList⟩ := by
  rw [syncRepository_stages w payload n u hn hn0 hu hu0, Run.andThen_ok _ hm,
    Run.andThen_ok _ ho]
  simp [hp, Run.fail]

theorem sync_configured (w : World) (payload : Option Payload) (n u P : Str)
    (hn : repositoryName payload = some n) (hn0 : n ≠ [])
    (hu : repositoryCloneUrl payload = some u) (hu0 : u ≠ [])
    (hm : (mirrorStage w u n).result = .ok ())
    (ho : (originStage w u).result = .ok ())
    (hp : w.CLIENT_REMOTE_PREFIX = some P) (hp0 : P ≠ []) :
    syncRepository w payload =
      ⟨(mirrorStage w u n).trace ++ (originStage w u).trace ++
          (configuredStage w payload P n).trace,
        (configuredStage w payload P n).result⟩ := by
  have ht : truthy w.CLIENT_REMOTE_PREFIX = true := (truthy_eq_true_iff _).2 ⟨P, hp, hp0⟩
  rw [syncRepository_stages w payload n u hn hn0 hu hu0, Run.andThen_ok _ hm,
    Run.andThen_ok _ ho]
  rw [hp] at ht
  simp [ht, hp]

theorem sync_ok (w : World) (payload : Option Payload) (n u P : Str)
    (hn : repositoryName payload = some n) (hn0 : n ≠ [])
    (hu : repositoryCloneUrl payload = some u) (hu0 : u ≠ [])
    (hm : (mirrorStage w u n).result = .ok ())
    (ho : (originStage w u).result = .ok ())
    (hp : w.CLIENT_REMOTE_PREFIX = some P) (hp0 : P ≠ [])
    (he : (ensureRemote w "client" (clientRemoteUrl P n)).result = .ok ())
    (hf : w.fetch "origin" = .ok ()) :
    syncRepository w payload = ⟨fullTrace w payload P n u, .ok ()⟩ := by
  rw [sync_configured w payload n u P hn hn0 hu hu0 hm ho hp hp0,
    configuredStage_ok w payload P n he hf]
  simp [fullTrace, preTrace]

/-- Every operation of a run is an operation of one of the stages. -/
theorem sync_trace_sublist (w : World) (payload : Option Payload) (n u P : Str)
    (hn : repositoryName payload = some n) (hn0 : n ≠ [])
    (hu : repositoryCloneUrl payload = some u) (hu0 : u ≠ [])
    (hp : w.CLIENT_REMOTE_PREFIX = some P) (hp0 : P ≠ []) :
    (syncRepository w payload).trace <+: fullTrace w payload P n u := by
  cases hm : (mirrorStage w u n).result with
  | error e =>
    rw [sync_mirror_error w payload n u e hn hn0 hu hu0 hm]
    simp [fullTrace, preTrace, List.append_assoc]
  | ok _ =>
    cases ho : (originStage w u).result with
    | error e =>
      rw [sync_origin_error w payload n u e hn hn0 hu hu0 hm ho]
      simp [fullTrace, preTrace, List.append_assoc, List.prefix_append_right_inj]
    | ok _ =>
      rw [sync_configured w payload n u P hn hn0 hu hu0 hm ho hp hp0]
      cases he : (ensureRemote w "client" (clientRemoteUrl P n)).result with
      | error e =>
        rw [configuredStage_ensure_error w payload P n e he]
        simp [fullTrace, preTrace, List.append_assoc, List.prefix_append_right_inj]
      | ok _ =>
        cases hf : w.fetch "origin" with
        | error e =>
          rw [configuredStage_fetch_error w payload P n e he hf]
          simp [fullTrace, preTrace, List.append_assoc, List.prefix_append_right_inj]
        | ok _ =>
          rw [configuredStage_ok w payload P n he hf]
          simp [fullTrace, preTrace, List.append_assoc]

/-! ## Missing destination prefix -/

theorem mirrorStage_trace_mem (w : World) (u n : Str) (op : Op)
    (h : op ∈ (mirrorStage w u n).trace) :
    op = .clone u (w.join w.LOCAL_REPOS_ROOT n) ["--mirror"] := by
  unfold mirrorStage at h
  split at h
  · simpa [Run.perform] using h
  · simp [Run.ret] at h

theorem mirrorStage_result_ok (w : World) (u n : Str)
    (h : w.existsSync (w.join w.LOCAL_REPOS_ROOT n) = true ∨
      w.clone u (w.join w.LOCAL_REPOS_ROOT n) ["--mirror"] = .ok ()) :
    (mirrorStage w u n).result = .ok () := by
  unfold mirrorStage
  by_cases he : w.existsSync (w.join w.LOCAL_REPOS_ROOT n) = true
  · simp [he, Run.ret]
  · rcases h with h | h
    · exact absurd h he
    · simp only [Bool.not_eq_true] at he
      simp only [he, Bool.not_false, if_true, Run.perform]
      exact h

theorem mirrorStage_trace (w : World) (u n : Str) :
    (mirrorStage w u n).trace =
      if w.existsSync (w.join w.LOCAL_REPOS_ROOT n) then []
      else [.clone u (w.join w.LOCAL_REPOS_ROOT n) ["--mirror"]] := by
  unfold mirrorStage
  cases w.existsSync (w.join w.LOCAL_REPOS_ROOT n) <;> simp [Run.perform, Run.ret]

/-- C2, as the code has it: without a destination prefix the only operations
issued are the mirror clone (when the directory is absent) and
`remote set-url origin <clone_url>`; once both have succeeded the
configuration error is thrown, before the `client` remote is read, added or
changed and before any listing, fetch, diff or push. -/
theorem sync_without_destination (w : World) (payload : Option Payload) (n u : Str)
    (hn : repositoryName payload = some n) (hn0 : n ≠ [])
    (hu : repositoryCloneUrl payload = some u) (hu0 : u ≠ [])
    (hp : w.CLIENT_REMOTE_PREFIX = none ∨ w.CLIENT_REMOTE_PREFIX = some []) :
    (∀ op ∈ (syncRepository w payload).trace,
        op = .clone u (w.join w.LOCAL_REPOS_ROOT n) ["--mirror"] ∨
          op = .remote ["set-url", "origin", u]) ∧
      ((w.existsSync (w.join w.LOCAL_REPOS_ROOT n) = true ∨
          w.clone u (w.join w.LOCAL_REPOS_ROOT n) ["--mirror"] = .ok ()) →
        w.remote ["set-url", "origin", u] = .ok () →
        (syncRepository w payload).result =
            .error "CLIENT_REMOTE_PREFIX is not configured in environment".toList ∧
          (syncRepository w payload).trace =
            (if w.existsSync (w.join w.LOCAL_REPOS_ROOT n) then []
              else [.clone u (w.join w.LOCAL_REPOS_ROOT n) ["--mirror"]]) ++
              [.remote ["set-url", "origin", u]]) := by
  have hpf : truthy w.CLIENT_REMOTE_PREFIX = false := (truthy_eq_false_iff _).2 hp
  constructor
  · intro op hop
    cases hm : (mirrorStage w u n).result with
    | error e =>
      rw [sync_mirror_error w payload n u e hn hn0 hu hu0 hm] at hop
      exact Or.inl (mirrorStage_trace_mem w u n op hop)
    | ok _ =>
      have hmem : op ∈ (mirrorStage w u n).trace ++ (originStage w u).trace := by
        cases ho : (originStage w u).result with
        | error e => rwa [sync_origin_error w payload n u e hn hn0 hu hu0 hm ho] at hop
        | ok _ => rwa [sync_unconfigured w payload n u hn hn0 hu hu0 hm ho hpf] at hop
      rcases List.mem_append.1 hmem with h | h
      · exact Or.inl (mirrorStage_trace_mem w u n op h)
      · exact Or.inr (by simpa [originStage, Run.perform] using h)
  · intro hm ho
    have hm' := mirrorStage_result_ok w u n hm
    have ho' : (originStage w u).result = .ok () := ho
    rw [sync_unconfigured w payload n u hn hn0 hu hu0 hm' ho' hpf, mirrorStage_trace]
    exact ⟨rfl, rfl⟩

theorem sync_without_destination_witness :
    (syncRepository unconfiguredWorld (some samplePayload)).result =
        .error "CLIENT_REMOTE_PREFIX is not configured in environment".toList ∧
      (syncRepository unconfiguredWorld (some samplePayload)).trace =
        [.clone "https://gitea.test/acme/demo.git".toList "repos/demo".toList ["--mirror".toList],
          .remote ["set-url".toList, "origin".toList, "https://gitea.test/acme/demo.git".toList]] :=
  (sync_without_destination unconfiguredWorld (some samplePayload) "demo".toList
    "https://gitea.test/acme/demo.git".toList rfl (by decide) rfl (by decide)
    (Or.inl rfl)).2 (Or.inr rfl) rfl

/-- C2 as stated fails: with the prefix unset and the mirror absent, the
configuration error is thrown after the clone has run and after the URL of
`origin` has been set. -/
theorem unconfigured_prefix_after_clone_and_origin :
    (syncRepository unconfiguredWorld (some samplePayload)).result =
        .error "CLIENT_REMOTE_PREFIX is not configured in environment".toList ∧
      Op.clone "https://gitea.test/acme/demo.git".toList "repos/demo".toList ["--mirror".toList] ∈
        (syncRepository unconfiguredWorld (some samplePayload)).trace ∧
      Op.remote ["set-url".toList, "origin".toList, "https://gitea.test/acme/demo.git".toList] ∈
        (syncRepository unconfiguredWorld (some samplePayload)).trace := by
  refine ⟨rfl, ?_, ?_⟩ <;> decide

/-! ## The shape of every run -/

theorem ensureRemote_trace_mem (w : World) (name url : Str) (op : Op)
    (h : op ∈ (ensureRemote w name url).trace) :
    op = .getRemotes ∨ op = .addRemote name url ∨ op = .remote ["set-url", name, url] := by
  unfold ensureRemote at h
  rw [Run.mem_trace_andThen] at h
  rcases h with h | ⟨remotes, _, h⟩
  · exact Or.inl (by simpa [Run.perform] using h)
  · split at h
    · exact Or.inr (Or.inl (by simpa [Run.perform] using h))
    · split at h
      · exact Or.inr (Or.inr (by simpa [Run.perform] using h))
      · simp [Run.ret] at h

theorem classify_trace_mem (w : World) (d : Str) (op : Op) (h : op ∈ (classify w d).trace) :
    op = .createChatCompletion (buildPrompt (commentLines d)) := by
  unfold classify at h
  simp only at h
  split at h
  · simp [Run.ret] at h
  · split at h
    · simp [Run.ret] at h
    · split at h
      · simp [Run.ret] at h
      · rw [Run.attempt_ret_trace, Run.mem_trace_andThen] at h
        rcases h with h | ⟨_, _, h⟩
        · simpa [Run.perform] using h
        · simp [Run.ret] at h

theorem detect_trace_mem (w : World) (payload : Option Payload) (op : Op)
    (h : op ∈ (detectIndonesianComments w payload).trace) :
    op = .diff [diffRange payload] ∨ ∃ q, op = .createChatCompletion q := by
  by_cases hb : truthy (payload.bind fun p => p.before) = true
  · by_cases ha : truthy (payload.bind fun p => p.after) = true
    · cases hd : w.diff [diffRange payload] with
      | error e =>
        rw [detect_diff_error w payload e hb ha hd] at h
        exact Or.inl (by simpa using h)
      | ok d =>
        rw [detect_diff_ok w payload d hb ha hd] at h
        rcases List.mem_cons.1 h with h | h
        · exact Or.inl h
        · exact Or.inr ⟨_, classify_trace_mem w d op h⟩
    · rw [detect_absent w payload (Or.inr (by simpa using ha))] at h
      simp at h
  · rw [detect_absent w payload (Or.inl (by simpa using hb))] at h
    simp at h

theorem preTrace_mem (w : World) (P n u : Str) (op : Op) (h : op ∈ preTrace w P n u) :
    op = .clone u (w.join w.LOCAL_REPOS_ROOT n) ["--mirror"] ∨
      op = .remote ["set-url", "origin", u] ∨ op = .getRemotes ∨
      op = .addRemote "client" (clientRemoteUrl P n) ∨
      op = .remote ["set-url", "client", clientRemoteUrl P n] ∨
      op = .listRemote ["--heads", "origin"] ∨ op = .fetch "client" ∨
      op = .push ["--mirror", "origin"] ∨ op = .fetch "origin" := by
  simp only [preTrace, List.mem_append] at h
  rcases h with ((((h | h) | h) | h) | h) | h
  · exact Or.inl (mirrorStage_trace_mem w u n op h)
  · right; left
    simpa [originStage, Run.perform] using h
  · rcases ensureRemote_trace_mem w _ _ op h with h | h | h
    · right; right; left; exact h
    · right; right; right; left; exact h
    · right; right; right; right; left; exact h
  · right; right; right; right; right; left
    simpa [listStage_trace] using h
  · rw [seedStage_trace] at h
    split at h
    · rcases List.mem_cons.1 h with h | h
      · right; right; right; right; right; right; left; exact h
      · split at h
        · right; right; right; right; right; right; right; left
          simpa using h
        · simp at h
    · simp at h
  · right; right; right; right; right; right; right; right
    simpa [fetchStage, Run.perform] using h

theorem afterVerdict_false_trace (w : World) (payload : Option Payload) :
    (afterVerdict w payload false).trace = [.push ["--mirror", "client"]] := by
  simp [afterVerdict, Run.attempt_ret_trace, Run.perform]

theorem sync_trace_shape (w : World) (payload : Option Payload) :
    ∃ n u P, (syncRepository w payload).trace <+: preTrace w P n u ∨
      (syncRepository w payload = ⟨fullTrace w payload P n u, .ok ()⟩) := by
  by_cases hv : truthy (repositoryName payload) = true ∧
      truthy (repositoryCloneUrl payload) = true
  · obtain ⟨n, hn, hn0⟩ := (truthy_eq_true_iff _).1 hv.1
    obtain ⟨u, hu, hu0⟩ := (truthy_eq_true_iff _).1 hv.2
    by_cases hp : truthy w.CLIENT_REMOTE_PREFIX = true
    · obtain ⟨P, hP, hP0⟩ := (truthy_eq_true_iff _).1 hp
      refine ⟨n, u, P, ?_⟩
      cases hm : (mirrorStage w u n).result with
      | error e =>
        left
        rw [sync_mirror_error w payload n u e hn hn0 hu hu0 hm]
        simp [preTrace, List.append_assoc]
      | ok _ =>
        cases ho : (originStage w u).result with
        | error e =>
          left
          rw [sync_origin_error w payload n u e hn hn0 hu hu0 hm ho]
          simp [preTrace, List.append_assoc, List.prefix_append_right_inj]
        | ok _ =>
          cases he : (ensureRemote w "client" (clientRemoteUrl P n)).result with
          | error e =>
            left
            rw [sync_configured w payload n u P hn hn0 hu hu0 hm ho hP hP0,
              configuredStage_ensure_error w payload P n e he]
            simp [preTrace, List.append_assoc, List.prefix_append_right_inj]
          | ok _ =>
            cases hf : w.fetch "origin" with
            | error e =>
              left
              rw [sync_configured w payload n u P hn hn0 hu hu0 hm ho hP hP0,
                configuredStage_fetch_error w payload P n e he hf]
              simp [preTrace, List.append_assoc, List.prefix_append_right_inj]
            | ok _ =>
              right
              exact sync_ok w payload n u P hn hn0 hu hu0 hm ho hP hP0 he hf
    · refine ⟨n, u, [], Or.inl ?_⟩
      have hpf : truthy w.CLIENT_REMOTE_PREFIX = false := by simpa using hp
      cases hm : (mirrorStage w u n).result with
      | error e =>
        rw [sync_mirror_error w payload n u e hn hn0 hu hu0 hm]
        simp [preTrace, List.append_assoc]
      | ok _ =>
        cases ho : (originStage w u).result with
        | error e =>
          rw [sync_origin_error w payload n u e hn hn0 hu hu0 hm ho]
          simp [preTrace, List.append_assoc, List.prefix_append_right_inj]
        | ok _ =>
          rw [sync_unconfigured w payload n u hn hn0 hu hu0 hm ho hpf]
          simp [preTrace, List.append_assoc, List.prefix_append_right_inj]
  · refine ⟨[], [], [], Or.inl ?_⟩
    have hinv : repositoryName payload = none ∨ repositoryName payload = some [] ∨
        repositoryCloneUrl payload = none ∨ repositoryCloneUrl payload = some [] := by
      by_cases h1 : truthy (repositoryName payload) = true
      · have h2 : truthy (repositoryCloneUrl payload) = false := by
          cases h : truthy (repositoryCloneUrl payload)
          · rfl
          · exact absurd ⟨h1, h⟩ hv
        rcases (truthy_eq_false_iff _).1 h2 with h | h
        · exact Or.inr (Or.inr (Or.inl h))
        · exact Or.inr (Or.inr (Or.inr h))
      · rcases (truthy_eq_false_iff _).1 (by simpa using h1) with h | h
        · exact Or.inl h
        · exact Or.inr (Or.inl h)
    have hc : (!truthy (repositoryName payload) || !truthy (repositoryCloneUrl payload)) = true := by
      rcases hinv with h | h | h | h <;> simp [h, truthy]
    have : (syncRepository w payload).trace = [] := by
      simp [syncRepository, hc, Run.fail]
    rw [this]
    exact List.nil_prefix

/-! ## Which failures reach the caller -/

theorem afterVerdict_true_trace_eq (w : World) (payload : Option Payload) :
    (afterVerdict w payload true).trace =
      if truthy (payload.bind fun p => p.before) && truthy (branchName payload) then
        [.push ["--force", "origin",
          (payload.bind fun p => p.before).getD [] ++ ":refs/heads/".toList ++
            (branchName payload).getD []]]
      else [] := by
  simp only [afterVerdict, if_true, Run.attempt_ret_trace, branchName, apply_ite Run.trace]
  rfl

theorem classify_client_error (w : World) (d e : Str) (client : Str → Except Str (Option Str))
    (hne : commentLines d ≠ []) (h : (commentLines d).any stopWordsTest = false)
    (hc : w.openai = some client) (herr : client (buildPrompt (commentLines d)) = .error e) :
    classify w d = ⟨[.createChatCompletion (buildPrompt (commentLines d))], .ok false⟩ := by
  have hne : ¬ (commentLines d).length = 0 := by
    rwa [List.length_eq_zero]
  simp only [classify, hne, if_false, h, hc, Bool.false_eq_true, Run.attempt, Run.andThen,
    Run.perform, Run.ret, herr, List.append_nil]

theorem preTrace_on_disk (w : World) (P n u : Str)
    (hdir : w.existsSync (w.join w.LOCAL_REPOS_ROOT n) = true) :
    preTrace w P n u =
      .remote ["set-url", "origin", u] ::
        (ensureRemote w "client" (clientRemoteUrl P n)).trace ++
        [.listRemote ["--heads", "origin"]] ++
        (if (jsTrim ((w.listRemote ["--heads", "origin"]).toOption.getD [])).isEmpty then
          Op.fetch "client" ::
            (if (w.fetch "client").isOk then [Op.push ["--mirror", "origin"]] else [])
        else []) ++
        [.fetch "origin"] := by
  simp only [preTrace, mirrorStage_trace, hdir, if_true, listStage_trace, seedStage_trace,
    originRefs, List.nil_append]
  rfl

/-- C7, as the code has it: with a valid payload, a configured prefix and the
mirror on disk,
* `syncRepository` returns normally exactly when setting the URL of `origin`,
  `ensureRemote` for `client` and the fetch from `origin` succeed;
* a failure of one of these three is thrown to the caller, and the run stops
  at the failing operation;
* when the three succeed the run goes through every later step whatever else
  fails: a failed listing of heads is read as no heads and followed by the
  seeding, a failed seed fetch or seed push is followed by the fetch from
  `origin`, then come the operations of the detection and, by its verdict,
  the reset or the mirror push, whose own failure ends the run normally;
* a failed diff and a failed classifier call give the verdict `false`, so
  the run ends with the mirror push to `client`. -/
theorem sync_failure_policy (w : World) (payload : Option Payload) (n u P : Str)
    (hn : repositoryName payload = some n) (hn0 : n ≠ [])
    (hu : repositoryCloneUrl payload = some u) (hu0 : u ≠ [])
    (hp : w.CLIENT_REMOTE_PREFIX = some P) (hp0 : P ≠ [])
    (hdir : w.existsSync (w.join w.LOCAL_REPOS_ROOT n) = true) :
    ((syncRepository w payload).result = .ok () ↔
        w.remote ["set-url", "origin", u] = .ok () ∧
          (ensureRemote w "client" (clientRemoteUrl P n)).result = .ok () ∧
          w.fetch "origin" = .ok ()) ∧
      (∀ e, w.remote ["set-url", "origin", u] = .error e →
        syncRepository w payload = ⟨[.remote ["set-url", "origin", u]], .error e⟩) ∧
      (∀ e, w.remote ["set-url", "origin", u] = .ok () →
        (ensureRemote w "client" (clientRemoteUrl P n)).result = .error e →
        syncRepository w payload =
          ⟨.remote ["set-url", "origin", u] ::
            (ensureRemote w "client" (clientRemoteUrl P n)).trace, .error e⟩) ∧
      (∀ e, w.remote ["set-url", "origin", u] = .ok () →
        (ensureRemote w "client" (clientRemoteUrl P n)).result = .ok () →
        w.fetch "origin" = .error e →
        syncRepository w payload =
          ⟨.remote ["set-url", "origin", u] ::
            (ensureRemote w "client" (clientRemoteUrl P n)).trace ++
            [.listRemote ["--heads", "origin"]] ++
            (if (jsTrim ((w.listRemote ["--heads", "origin"]).toOption.getD [])).isEmpty then
              Op.fetch "client" ::
                (if (w.fetch "client").isOk then [Op.push ["--mirror", "origin"]] else [])
            else []) ++
            [.fetch "origin"], .error e⟩) ∧
      (w.remote ["set-url", "origin", u] = .ok () →
        (ensureRemote w "client" (clientRemoteUrl P n)).result = .ok () →
        w.fetch "origin" = .ok () →
        ∃ b, (detectIndonesianComments w payload).result = .ok b ∧
          syncRepository w payload =
            ⟨.remote ["set-url", "origin", u] ::
              (ensureRemote w "client" (clientRemoteUrl P n)).trace ++
              [.listRemote ["--heads", "origin"]] ++
              (if (jsTrim ((w.listRemote ["--heads", "origin"]).toOption.getD [])).isEmpty then
                Op.fetch "client" ::
                  (if (w.fetch "client").isOk then [Op.push ["--mirror", "origin"]] else [])
              else []) ++
              [.fetch "origin"] ++
              (detectIndonesianComments w payload).trace ++
              (if b then
                (if truthy (payload.bind fun p => p.before) && truthy (branchName payload) then
                  [.push ["--force", "origin",
                    (payload.bind fun p => p.before).getD [] ++ ":refs/heads/".toList ++
                      (branchName payload).getD []]]
                else [])
              else [.push ["--mirror", "client"]]), .ok ()⟩) ∧
      (∀ e, truthy (payload.bind fun p => p.before) = true →
        truthy (payload.bind fun p => p.after) = true →
        w.diff [diffRange payload] = .error e →
        detectIndonesianComments w payload = ⟨[.diff [diffRange payload]], .ok false⟩) ∧
      (∀ d e client, truthy (payload.bind fun p => p.before) = true →
        truthy (payload.bind fun p => p.after) = true →
        w.diff [diffRange payload] = .ok d → commentLines d ≠ [] →
        (commentLines d).any stopWordsTest = false → w.openai = some client →
        client (buildPrompt (commentLines d)) = .error e →
        detectIndonesianComments w payload =
          ⟨[.diff [diffRange payload], .createChatCompletion (buildPrompt (commentLines d))],
            .ok false⟩) := by
  have hm := mirrorStage_result_ok w u n (Or.inl hdir)
  have hmt : (mirrorStage w u n).trace = [] := by
    rw [mirrorStage_trace, hdir]
    rfl
  have hpre := preTrace_on_disk w P n u hdir
  refine ⟨?_, ?_, ?_, ?_, ?_, ?_, ?_⟩
  · cases ho : w.remote ["set-url", "origin", u] with
    | error e =>
      have ho' : (originStage w u).result = .error e := ho
      rw [sync_origin_error w payload n u e hn hn0 hu hu0 hm ho']
      simp
    | ok _ =>
      have ho' : (originStage w u).result = .ok () := ho
      rw [sync_configured w payload n u P hn hn0 hu hu0 hm ho' hp hp0]
      cases he : (ensureRemote w "client" (clientRemoteUrl P n)).result with
      | error e =>
        rw [configuredStage_ensure_error w payload P n e he]
        simp
      | ok _ =>
        cases hf : w.fetch "origin" with
        | error e =>
          rw [configuredStage_fetch_error w payload P n e he hf]
          simp
        | ok _ =>
          rw [configuredStage_ok w payload P n he hf]
          simp
  · intro e ho
    have ho' : (originStage w u).result = .error e := ho
    rw [sync_origin_error w payload n u e hn hn0 hu hu0 hm ho', hmt]
    rfl
  · intro e ho he
    have ho' : (originStage w u).result = .ok () := ho
    rw [sync_configured w payload n u P hn hn0 hu hu0 hm ho' hp hp0,
      configuredStage_ensure_error w payload P n e he, hmt]
    rfl
  · intro e ho he hf
    have ho' : (originStage w u).result = .ok () := ho
    rw [sync_configured w payload n u P hn hn0 hu hu0 hm ho' hp hp0,
      configuredStage_fetch_error w payload P n e he hf, ← hpre]
    simp [preTrace, List.append_assoc]
  · intro ho he hf
    have ho' : (originStage w u).result = .ok () := ho
    refine ⟨verdict w payload, detect_result_verdict w payload, ?_⟩
    rw [sync_ok w payload n u P hn hn0 hu hu0 hm ho' hp hp0 he hf, ← hpre]
    cases hv : verdict w payload with
    | true => simp only [fullTrace, hv, afterVerdict_true_trace_eq, if_true]
    | false =>
      simp only [fullTrace, hv, afterVerdict_false_trace, Bool.false_eq_true, if_false]
  · intro e hb ha hd
    exact detect_diff_error w payload e hb ha hd
  · intro d e client hb ha hd hne hany hc herr
    rw [detect_diff_ok w payload d hb ha hd, classify_client_error w d e client hne hany hc herr]

theorem sync_failure_policy_witness :
    (syncRepository caughtFailuresWorld (some samplePayload)).result = .ok () ∧
      detectIndonesianComments caughtFailuresWorld (some samplePayload) =
        ⟨[.diff ["aaa..bbb".toList]], .ok false⟩ ∧
      (syncRepository caughtFailuresWorld (some samplePayload)).trace =
        [.remote ["set-url".toList, "origin".toList, "https://gitea.test/acme/demo.git".toList],
          .getRemotes,
          .addRemote "client".toList "https://github.com/acme/demo.git".toList,
          .listRemote ["--heads".toList, "origin".toList],
          .fetch "client".toList,
          .fetch "origin".toList,
          .diff ["aaa..bbb".toList],
          .push ["--mirror".toList, "client".toList]] :=
  have h := sync_failure_policy caughtFailuresWorld (some samplePayload) "demo".toList
    "https://gitea.test/acme/demo.git".toList "git@github.com:acme".toList rfl (by decide) rfl
    (by decide) rfl (by decide) rfl
  ⟨h.1.2 ⟨rfl, rfl, rfl⟩,
    h.2.2.2.2.2.1 "fatal: bad revision".toList (by decide) (by decide) rfl,
    by
      obtain ⟨b, hb, htrace⟩ := h.2.2.2.2.1 rfl rfl rfl
      have hfalse : b = false := by
        have hdet := h.2.2.2.2.2.1 "fatal: bad revision".toList (by decide) (by decide) rfl
        rw [hdet] at hb
        exact (Except.ok.inj hb).symm
      subst hfalse
      rw [htrace]
      rfl⟩

/-- C7 as stated fails: with a valid payload, a configured prefix and the
mirror on disk, a failure of `remote set-url origin` is thrown to the caller. -/
theorem origin_set_url_failure_is_thrown :
    repositoryName (some samplePayload) = some "demo".toList ∧
      originFailsWorld.CLIENT_REMOTE_PREFIX = some "git@github.com:acme".toList ∧
      originFailsWorld.existsSync
        (originFailsWorld.join originFailsWorld.LOCAL_REPOS_ROOT "demo".toList) = true ∧
      (syncRepository originFailsWorld (some samplePayload)).result =
        .error "fatal: could not set url".toList :=
  ⟨rfl, rfl, rfl, rfl⟩

/-! ## The verdict before the destination -/

theorem preTrace_no_client_push (w : World) (P n u : Str) (op : Op)
    (h : op ∈ preTrace w P n u) : isClientPush op = false := by
  rcases preTrace_mem w P n u op h with h | h | h | h | h | h | h | h | h <;> subst h <;> rfl

theorem detect_no_client_push (w : World) (payload : Option Payload) (op : Op)
    (h : op ∈ (detectIndonesianComments w payload).trace) : isClientPush op = false := by
  rcases detect_trace_mem w payload op h with h | ⟨q, h⟩ <;> subst h <;> rfl

theorem Run.mem_trace_ite_perform (c : Prop) [Decidable c] (op x : Op) (o : Except Str Unit)
    (h : x ∈ (if c then Run.perform op o else Run.ret ()).trace) : x = op := by
  split at h
  · simpa [Run.perform] using h
  · simp [Run.ret] at h

theorem afterVerdict_true_trace_mem (w : World) (payload : Option Payload) (op : Op)
    (h : op ∈ (afterVerdict w payload true).trace) :
    ∃ refspec, op = .push ["--force", "origin", refspec] := by
  simp only [afterVerdict, if_true, Run.attempt_ret_trace] at h
  exact ⟨_, Run.mem_trace_ite_perform _ _ _ _ h⟩

theorem afterVerdict_true_no_client_push (w : World) (payload : Option Payload) (op : Op)
    (h : op ∈ (afterVerdict w payload true).trace) : isClientPush op = false := by
  obtain ⟨r, rfl⟩ := afterVerdict_true_trace_mem w payload op h
  rfl

/-- C3: in every run of `syncRepository`, a push to `client` is issued only
after `detectIndonesianComments` has returned `false`: it is the last
operation of the run, everything before it (the operations of the detection
included) is no push to `client`, and when the verdict is `true` the run has
no push to `client` at all, whatever becomes of the branch reset. -/
theorem client_push_only_after_accept (w : World) (payload : Option Payload) :
    ((detectIndonesianComments w payload).result = .ok true →
        ∀ op ∈ (syncRepository w payload).trace, isClientPush op = false) ∧
      ∀ op ∈ (syncRepository w payload).trace, isClientPush op = true →
        (detectIndonesianComments w payload).result = .ok false ∧
          ∃ pre, (syncRepository w payload).trace =
              pre ++ (detectIndonesianComments w payload).trace ++ [op] ∧
            ∀ o ∈ pre ++ (detectIndonesianComments w payload).trace, isClientPush o = false := by
  obtain ⟨n, u, P, hshape⟩ := sync_trace_shape w payload
  have hres := detect_result_verdict w payload
  constructor
  · intro htrue op hop
    have hv : verdict w payload = true := by
      rw [hres] at htrue
      exact Except.ok.inj htrue
    rcases hshape with hpre | hfull
    · exact preTrace_no_client_push w P n u op (hpre.subset hop)
    · rw [hfull] at hop
      simp only [fullTrace, List.mem_append, hv] at hop
      rcases hop with (h | h) | h
      · exact preTrace_no_client_push w P n u op h
      · exact detect_no_client_push w payload op h
      · exact afterVerdict_true_no_client_push w payload op h
  · intro op hop hpush
    rcases hshape with hpre | hfull
    · rw [preTrace_no_client_push w P n u op (hpre.subset hop)] at hpush
      cases hpush
    · have hnot : ∀ o ∈ preTrace w P n u ++ (detectIndonesianComments w payload).trace,
          isClientPush o = false := by
        intro o ho
        rcases List.mem_append.1 ho with h | h
        · exact preTrace_no_client_push w P n u o h
        · exact detect_no_client_push w payload o h
      rw [hfull] at hop ⊢
      simp only [fullTrace, List.mem_append] at hop
      cases hv : verdict w payload with
      | true =>
        rw [hv] at hop
        rcases hop with (h | h) | h
        · rw [preTrace_no_client_push w P n u op h] at hpush
          cases hpush
        · rw [detect_no_client_push w payload op h] at hpush
          cases hpush
        · rw [afterVerdict_true_no_client_push w payload op h] at hpush
          cases hpush
      | false =>
        rw [hv] at hop hres
        rcases hop with (h | h) | h
        · rw [preTrace_no_client_push w P n u op h] at hpush
          cases hpush
        · rw [detect_no_client_push w payload op h] at hpush
          cases hpush
        · rw [afterVerdict_false_trace] at h
          have hop' : op = .push ["--mirror", "client"] := by simpa using h
          refine ⟨hres, preTrace w P n u, ?_, hnot⟩
          simp only [fullTrace, hv, afterVerdict_false_trace, hop']

/-! ## Events without a commit range -/

theorem preTrace_no_detection (w : World) (P n u : Str) (op : Op) (h : op ∈ preTrace w P n u) :
    (∀ args, op ≠ .diff args) ∧ (∀ q, op ≠ .createChatCompletion q) ∧
      isForcePushToOrigin op = false := by
  rcases preTrace_mem w P n u op h with h | h | h | h | h | h | h | h | h <;> subst h <;>
    exact ⟨fun _ hh => Op.noConfusion hh, fun _ hh => Op.noConfusion hh, rfl⟩

/-- C8: with a valid payload and a configured prefix, when `before` or `after`
is `undefined`, `null` or `''` and the steps up to the fetch from `origin`
succeed, `detectIndonesianComments` returns `false` having issued nothing (no
diff, no classifier call); the run issues no diff, no classifier call and no
force-push to `origin`, and its pushes to `client` are exactly one
`push --mirror client`, the last operation of the run. -/
theorem sync_without_range (w : World) (payload : Option Payload) (n u P : Str)
    (hn : repositoryName payload = some n) (hn0 : n ≠ [])
    (hu : repositoryCloneUrl payload = some u) (hu0 : u ≠ [])
    (hp : w.CLIENT_REMOTE_PREFIX = some P) (hp0 : P ≠ [])
    (habs : (payload.bind fun p => p.before) = none ∨ (payload.bind fun p => p.before) = some [] ∨
      (payload.bind fun p => p.after) = none ∨ (payload.bind fun p => p.after) = some [])
    (hm : w.existsSync (w.join w.LOCAL_REPOS_ROOT n) = true ∨
      w.clone u (w.join w.LOCAL_REPOS_ROOT n) ["--mirror"] = .ok ())
    (ho : w.remote ["set-url", "origin", u] = .ok ())
    (he : (ensureRemote w "client" (clientRemoteUrl P n)).result = .ok ())
    (hf : w.fetch "origin" = .ok ()) :
    detectIndonesianComments w payload = ⟨[], .ok false⟩ ∧
      (∀ op ∈ (syncRepository w payload).trace,
        (∀ args, op ≠ .diff args) ∧ (∀ q, op ≠ .createChatCompletion q) ∧
          isForcePushToOrigin op = false) ∧
      (syncRepository w payload).trace.filter isClientPush = [.push ["--mirror", "client"]] ∧
      (syncRepository w payload).trace.getLast? = some (.push ["--mirror", "client"]) := by
  have hdet : detectIndonesianComments w payload = ⟨[], .ok false⟩ := by
    apply detect_absent
    rcases habs with h | h | h | h
    · exact Or.inl ((truthy_eq_false_iff _).2 (Or.inl h))
    · exact Or.inl ((truthy_eq_false_iff _).2 (Or.inr h))
    · exact Or.inr ((truthy_eq_false_iff _).2 (Or.inl h))
    · exact Or.inr ((truthy_eq_false_iff _).2 (Or.inr h))
  have hv : verdict w payload = false := by
    simp [verdict, hdet, Except.toOption]
  have htrace : (syncRepository w payload).trace =
      preTrace w P n u ++ [.push ["--mirror", "client"]] := by
    rw [sync_ok w payload n u P hn hn0 hu hu0 (mirrorStage_result_ok w u n hm) ho hp hp0 he hf]
    simp only [fullTrace, hdet, hv, afterVerdict_false_trace, List.append_nil]
  refine ⟨hdet, ?_, ?_, ?_⟩
  · intro op hop
    rw [htrace] at hop
    rcases List.mem_append.1 hop with h | h
    · exact preTrace_no_detection w P n u op h
    · have hop' : op = .push ["--mirror", "client"] := by simpa using h
      subst hop'
      exact ⟨fun _ hh => Op.noConfusion hh, fun _ hh => Op.noConfusion hh, rfl⟩
  · rw [htrace, List.filter_append]
    have hnil : (preTrace w P n u).filter isClientPush = [] := by
      rw [List.filter_eq_nil_iff]
      intro op hop
      simp [preTrace_no_client_push w P n u op hop]
    rw [hnil]
    rfl
  · rw [htrace]
    simp

theorem sync_without_range_witness :
    detectIndonesianComments sampleWorld (some newBranchPayload) = ⟨[], .ok false⟩ ∧
      (syncRepository sampleWorld (some newBranchPayload)).trace.filter isClientPush =
        [.push ["--mirror".toList, "client".toList]] :=
  have h := sync_without_range sampleWorld (some newBranchPayload) "demo".toList
    "https://gitea.test/acme/demo.git".toList "git@github.com:acme".toList rfl (by decide) rfl
    (by decide) rfl (by decide) (Or.inl rfl) (Or.inl rfl) rfl rfl rfl
  ⟨h.1, h.2.2.1⟩

/-! ## Seeding -/

theorem jsTrim_eq_nil_iff (s : Str) : jsTrim s = [] ↔ ∀ c ∈ s, isJsWhiteSpace c = true := by
  unfold jsTrim
  rw [List.reverse_eq_nil_iff, List.dropWhile_eq_nil_iff]
  constructor
  · intro h
    have hdrop : s.dropWhile isJsWhiteSpace = [] := by
      cases hd : s.dropWhile isJsWhiteSpace with
      | nil => rfl
      | cons c cs =>
        have h1 := List.head?_dropWhile_not isJsWhiteSpace s
        rw [hd] at h1 h
        simp only [List.head?_cons] at h1
        have h2 := h c (by simp)
        rw [h2] at h1
        simp at h1
    exact List.dropWhile_eq_nil_iff.1 hdrop
  · intro h
    rw [List.dropWhile_eq_nil_iff.2 h]
    simp

/-- C9: with a valid payload and a configured prefix, once the listing of the
heads of `origin` is reached and returns `refs`: if `refs` is empty or only
white space, the run continues with `fetch client`, then (when that fetch
succeeded) `push --mirror origin`, and only then `fetch origin`, none of which
occurs earlier; if `refs` has a character that is not white space, neither
`fetch client` nor `push --mirror origin` is issued in the whole run. -/
theorem seed_iff_no_heads (w : World) (payload : Option Payload) (n u P refs : Str)
    (hn : repositoryName payload = some n) (hn0 : n ≠ [])
    (hu : repositoryCloneUrl payload = some u) (hu0 : u ≠ [])
    (hp : w.CLIENT_REMOTE_PREFIX = some P) (hp0 : P ≠ [])
    (hm : w.existsSync (w.join w.LOCAL_REPOS_ROOT n) = true ∨
      w.clone u (w.join w.LOCAL_REPOS_ROOT n) ["--mirror"] = .ok ())
    (ho : w.remote ["set-url", "origin", u] = .ok ())
    (he : (ensureRemote w "client" (clientRemoteUrl P n)).result = .ok ())
    (hl : w.listRemote ["--heads", "origin"] = .ok refs) :
    ((∀ c ∈ refs, isJsWhiteSpace c = true) →
        ∃ pre post, (syncRepository w payload).trace =
            pre ++ [.listRemote ["--heads", "origin"], .fetch "client"] ++
              (if (w.fetch "client").isOk then [.push ["--mirror", "origin"]] else []) ++
              [.fetch "origin"] ++ post ∧
          .fetch "client" ∉ pre ∧ .push ["--mirror", "origin"] ∉ pre ∧ .fetch "origin" ∉ pre) ∧
      ((∃ c ∈ refs, isJsWhiteSpace c = false) →
        .fetch "client" ∉ (syncRepository w payload).trace ∧
          .push ["--mirror", "origin"] ∉ (syncRepository w payload).trace) := by
  have hrefs : originRefs w = refs := by
    unfold originRefs
    rw [hl]
    rfl
  have hm' := mirrorStage_result_ok w u n hm
  have ho' : (originStage w u).result = .ok () := ho
  have hhead : ∀ op ∈ (mirrorStage w u n).trace ++ (originStage w u).trace ++
      (ensureRemote w "client" (clientRemoteUrl P n)).trace,
      op ≠ .fetch "client" ∧ op ≠ .push ["--mirror", "origin"] ∧ op ≠ .fetch "origin" := by
    intro op hop
    simp only [List.mem_append] at hop
    rcases hop with (h | h) | h
    · rw [mirrorStage_trace_mem w u n op h]
      exact ⟨Op.noConfusion, Op.noConfusion, Op.noConfusion⟩
    · have : op = .remote ["set-url", "origin", u] := by simpa [originStage, Run.perform] using h
      rw [this]
      exact ⟨Op.noConfusion, Op.noConfusion, Op.noConfusion⟩
    · rcases ensureRemote_trace_mem w _ _ op h with h | h | h <;> rw [h] <;>
        exact ⟨Op.noConfusion, Op.noConfusion, Op.noConfusion⟩
  have hshape : ∃ post, (syncRepository w payload).trace =
      (mirrorStage w u n).trace ++ (originStage w u).trace ++
        (ensureRemote w "client" (clientRemoteUrl P n)).trace ++ (listStage w).trace ++
        (seedStage w refs).trace ++ (fetchStage w).trace ++ post ∧
      ∀ op ∈ post, op ≠ .fetch "client" ∧ op ≠ .push ["--mirror", "origin"] := by
    rw [sync_configured w payload n u P hn hn0 hu hu0 hm' ho' hp hp0]
    cases hf : w.fetch "origin" with
    | error e =>
      refine ⟨[], ?_, fun _ h => by cases h⟩
      rw [configuredStage_fetch_error w payload P n e he hf, hrefs]
      simp [List.append_assoc]
    | ok _ =>
      refine ⟨(detectIndonesianComments w payload).trace ++
        (afterVerdict w payload (verdict w payload)).trace, ?_, ?_⟩
      · rw [configuredStage_ok w payload P n he hf, hrefs]
        simp [List.append_assoc]
      · intro op hop
        rcases List.mem_append.1 hop with h | h
        · rcases detect_trace_mem w payload op h with h | ⟨q, h⟩ <;> rw [h] <;>
            exact ⟨Op.noConfusion, Op.noConfusion⟩
        · cases hv : verdict w payload with
          | true =>
            rw [hv] at h
            obtain ⟨r, hr⟩ := afterVerdict_true_trace_mem w payload op h
            rw [hr]
            exact ⟨Op.noConfusion, by simp⟩
          | false =>
            rw [hv, afterVerdict_false_trace] at h
            have : op = .push ["--mirror", "client"] := by simpa using h
            rw [this]
            exact ⟨Op.noConfusion, by decide⟩
  obtain ⟨post, htrace, hpost⟩ := hshape
  generalize (mirrorStage w u n).trace ++ (originStage w u).trace ++
    (ensureRemote w "client" (clientRemoteUrl P n)).trace = pre at hhead htrace
  constructor
  · intro hws
    have hempty : (jsTrim refs).isEmpty = true := by
      rw [(jsTrim_eq_nil_iff refs).2 hws]
      rfl
    refine ⟨pre, post, ?_, ?_, ?_, ?_⟩
    · rw [htrace, seedStage_trace, listStage_trace]
      simp [hempty, fetchStage, Run.perform, List.append_assoc]
    · exact fun h => (hhead _ h).1 rfl
    · exact fun h => (hhead _ h).2.1 rfl
    · exact fun h => (hhead _ h).2.2 rfl
  · rintro ⟨c, hc, hcw⟩
    have hnonempty : (jsTrim refs).isEmpty = false := by
      cases htrim : jsTrim refs with
      | nil =>
        have := (jsTrim_eq_nil_iff refs).1 htrim c hc
        rw [hcw] at this
        cases this
      | cons a as => rfl
    have hseed : (seedStage w refs).trace = [] := by
      rw [seedStage_trace]
      simp [hnonempty]
    rw [htrace, hseed, listStage_trace]
    constructor
    · intro hmem
      simp only [List.mem_append, List.append_nil] at hmem
      rcases hmem with ((h | h) | h) | h
      · exact (hhead _ h).1 rfl
      · simp at h
      · simp [fetchStage, Run.perform] at h
      · exact (hpost _ h).1 rfl
    · intro hmem
      simp only [List.mem_append, List.append_nil] at hmem
      rcases hmem with ((h | h) | h) | h
      · exact (hhead _ h).2.1 rfl
      · simp at h
      · simp [fetchStage, Run.perform] at h
      · exact (hpost _ h).2 rfl

theorem seed_iff_no_heads_witness :
    ∃ pre post, (syncRepository emptyOriginWorld (some samplePayload)).trace =
        pre ++ [.listRemote ["--heads".toList, "origin".toList], .fetch "client".toList] ++
          (if (emptyOriginWorld.fetch "client".toList).isOk then
            [.push ["--mirror".toList, "origin".toList]] else []) ++
          [.fetch "origin".toList] ++ post ∧
      .fetch "client".toList ∉ pre ∧ .push ["--mirror".toList, "origin".toList] ∉ pre ∧
      .fetch "origin".toList ∉ pre :=
  (seed_iff_no_heads emptyOriginWorld (some samplePayload) "demo".toList
    "https://gitea.test/acme/demo.git".toList "git@github.com:acme".toList " \n".toList rfl
    (by decide) rfl (by decide) rfl (by decide) (Or.inl rfl) rfl rfl rfl).1 (by decide)

/-! ## The URL of the destination -/

theorem isSuffixOf_slash_iff (s : Str) :
    List.isSuffixOf (α := Char) "/".toList s = true ↔ s.getLast? = some '/' := by
  rw [List.isSuffixOf_iff_suffix, List.getLast?_eq_some_iff]
  constructor
  · rintro ⟨t, ht⟩
    exact ⟨t, ht.symm⟩
  · rintro ⟨t, ht⟩
    exact ⟨t, ht.symm⟩

theorem clientRemoteUrl_github (path N : Str) :
    clientRemoteUrl ("git@github.com:".toList ++ path) N =
      "https://github.com/".toList ++ path ++
        (if path = [] ∨ path.getLast? = some '/' then [] else "/".toList) ++ N ++ ".git".toList := by
  have hpre : List.isPrefixOf (α := Char) "git@github.com:".toList
      ("git@github.com:".toList ++ path) = true := by
    rw [List.isPrefixOf_iff_prefix]
    exact List.prefix_append _ _
  have hdrop : ("git@github.com:".toList ++ path).drop 15 = path := by
    simp
  have hlast : ("https://github.com/".toList ++ path).getLast? = some '/' ↔
      (path = [] ∨ path.getLast? = some '/') := by
    cases path with
    | nil => simp
    | cons c cs =>
      rw [List.getLast?_append]
      cases h : (c :: cs).getLast? with
      | none => simp at h
      | some x => simp
  unfold clientRemoteUrl
  simp only [hpre, if_true, hdrop]
  by_cases h : path = [] ∨ path.getLast? = some '/'
  · have h' := (isSuffixOf_slash_iff _).2 (hlast.2 h)
    simp only [h', Bool.not_true, Bool.false_eq_true, if_false, if_pos h, List.append_nil]
  · have h' : List.isSuffixOf (α := Char) "/".toList ("https://github.com/".toList ++ path) =
        false := by
      cases hs : List.isSuffixOf (α := Char) "/".toList ("https://github.com/".toList ++ path)
      · rfl
      · exact absurd (hlast.1 ((isSuffixOf_slash_iff _).1 hs)) h
    simp only [h', Bool.not_false, if_true, if_neg h]

theorem clientRemoteUrl_other (P N : Str)
    (h : ¬ "git@github.com:".toList <+: P) :
    clientRemoteUrl P N =
      P ++ (if P.getLast? = some '/' then [] else "/".toList) ++ N ++ ".git".toList := by
  have hpre : List.isPrefixOf (α := Char) "git@github.com:".toList P = false := by
    cases hs : List.isPrefixOf (α := Char) "git@github.com:".toList P
    · rfl
    · exact absurd (List.isPrefixOf_iff_prefix.1 hs) h
  unfold clientRemoteUrl
  simp only [hpre, Bool.false_eq_true, if_false]
  by_cases hl : P.getLast? = some '/'
  · have h' := (isSuffixOf_slash_iff _).2 hl
    simp only [h', Bool.not_true, Bool.false_eq_true, if_false, if_pos hl, List.append_nil]
  · have h' : List.isSuffixOf (α := Char) "/".toList P = false := by
      cases hs : List.isSuffixOf (α := Char) "/".toList P
      · rfl
      · exact absurd ((isSuffixOf_slash_iff _).1 hs) hl
    simp only [h', Bool.not_false, if_true, if_neg hl]

/-- C10 as stated fails: the shorthand of a host other than `github.com` is
not rewritten, so the URL of `client` is not HTTPS-style. -/
theorem other_host_not_rewritten :
    clientRemoteUrl "git@gitlab.com:acme".toList "demo".toList =
        "git@gitlab.com:acme/demo.git".toList ∧
      claimedClientUrl "git@gitlab.com:acme".toList "demo".toList =
        "https://gitlab.com/acme/demo.git".toList ∧
      ¬ "https://".toList <+: clientRemoteUrl "git@gitlab.com:acme".toList "demo".toList := by
  decide

theorem fullTrace_client_url (w : World) (payload : Option Payload) (P n u : Str) (op : Op)
    (h : op ∈ fullTrace w payload P n u) :
    (∀ name url, op = .addRemote name url → name = "client".toList ∧ url = clientRemoteUrl P n) ∧
      (∀ url, op = .remote ["set-url", "client", url] → url = clientRemoteUrl P n) := by
  simp only [fullTrace, List.mem_append] at h
  rcases h with (h | h) | h
  · rcases preTrace_mem w P n u op h with h | h | h | h | h | h | h | h | h <;> subst h <;>
      simp
  · rcases detect_trace_mem w payload op h with h | ⟨q, h⟩ <;> subst h <;> simp
  · cases hv : verdict w payload with
    | true =>
      rw [hv] at h
      obtain ⟨r, hr⟩ := afterVerdict_true_trace_mem w payload op h
      subst hr
      simp
    | false =>
      rw [hv, afterVerdict_false_trace] at h
      have : op = .push ["--mirror", "client"] := by simpa using h
      subst this
      simp

/-- C10, as the code has it: for a non-empty prefix `P` and name `N`, every
`addRemote` and every `remote set-url client` of the run carries the URL
`P' ++ N ++ ".git"`, where `P'` is `P` with a leading `git@github.com:` (that
host only) rewritten to `https://github.com/` and a `/` appended exactly when
the result does not end with one. A prefix `git@github.com:<path>` gives an
HTTPS-style URL with a single separator added before `N` when `<path>` has
none; a prefix that does not start with `git@github.com:` is kept as it is. -/
theorem client_url_applied (w : World) (payload : Option Payload) (n u P : Str)
    (hn : repositoryName payload = some n) (hn0 : n ≠ [])
    (hu : repositoryCloneUrl payload = some u) (hu0 : u ≠ [])
    (hp : w.CLIENT_REMOTE_PREFIX = some P) (hp0 : P ≠ []) :
    (∀ op ∈ (syncRepository w payload).trace,
        (∀ name url, op = .addRemote name url →
          name = "client".toList ∧ url = clientRemoteUrl P n) ∧
        (∀ url, op = .remote ["set-url", "client", url] → url = clientRemoteUrl P n)) ∧
      (∀ path, P = "git@github.com:".toList ++ path →
        clientRemoteUrl P n =
          "https://github.com/".toList ++ path ++
            (if path = [] ∨ path.getLast? = some '/' then [] else "/".toList) ++ n ++
            ".git".toList) ∧
      (¬ "git@github.com:".toList <+: P →
        clientRemoteUrl P n =
          P ++ (if P.getLast? = some '/' then [] else "/".toList) ++ n ++ ".git".toList) := by
  refine ⟨fun op hop => ?_, fun path hpath => ?_, fun hnot => clientRemoteUrl_other P n hnot⟩
  · exact fullTrace_client_url w payload P n u op
      ((sync_trace_sublist w payload n u P hn hn0 hu hu0 hp hp0).subset hop)
  · rw [hpath]
    exact clientRemoteUrl_github path n

theorem client_url_applied_witness :
    Op.addRemote "client".toList "https://github.com/acme/demo.git".toList ∈
        (syncRepository sampleWorld (some samplePayload)).trace ∧
      clientRemoteUrl "git@github.com:acme".toList "demo".toList =
        "https://github.com/acme/demo.git".toList :=
  have h := client_url_applied sampleWorld (some samplePayload) "demo".toList
    "https://gitea.test/acme/demo.git".toList "git@github.com:acme".toList rfl (by decide) rfl
    (by decide) rfl (by decide)
  ⟨by decide, (h.2.1 "acme".toList rfl).trans (by decide)⟩

/-! ## The reset of the rejected branch -/

theorem jsSplit_ne_nil (sep : Char) (s : Str) : jsSplit sep s ≠ [] := by
  induction s with
  | nil => simp [jsSplit]
  | cons c cs ih =>
    simp only [jsSplit]
    split
    · simp
    · split <;> simp

theorem jsSplit_of_not_mem (sep : Char) (s : Str) (h : sep ∉ s) : jsSplit sep s = [s] := by
  induction s with
  | nil => rfl
  | cons c cs ih =>
    have hc : ¬ c = sep := fun hh => h (by simp [hh])
    have hcs : sep ∉ cs := fun hh => h (List.mem_cons_of_mem _ hh)
    simp [jsSplit, hc, ih hcs]

theorem jsSplit_append_sep (sep : Char) (rest : Str) :
    ∀ pre : Str, ∃ seg init, jsSplit sep (pre ++ sep :: rest) = seg :: init ++ jsSplit sep rest := by
  intro pre
  induction pre with
  | nil => exact ⟨[], [], by simp [jsSplit]⟩
  | cons c cs ih =>
    obtain ⟨seg, init, h⟩ := ih
    by_cases hc : c = sep
    · exact ⟨[], seg :: init, by simp [jsSplit, hc, h]⟩
    · exact ⟨c :: seg, init, by simp [jsSplit, hc, h]⟩

/-- The branch name of line 90 is the part of the ref after its last `/`. -/
theorem jsSplit_getLast (pre branch : Str) (h : '/' ∉ branch) :
    (jsSplit '/' (pre ++ '/' :: branch)).getLast? = some branch := by
  obtain ⟨seg, init, hs⟩ := jsSplit_append_sep '/' branch pre
  rw [hs, jsSplit_of_not_mem '/' branch h]
  exact List.getLast?_concat _

/-- The one operation of a rejection whose `before` and branch name are
present: the force-push of `before` to the branch named by the last segment. -/
theorem afterVerdict_true_trace (w : World) (payload : Option Payload) (b r pre branch : Str)
    (hb : (payload.bind fun p => p.before) = some b) (hb0 : b ≠ [])
    (hr : (payload.bind fun p => p.ref) = some r) (hsplit : r = pre ++ '/' :: branch)
    (hbranch : '/' ∉ branch) (hbranch0 : branch ≠ []) :
    (afterVerdict w payload true).trace =
      [.push ["--force", "origin", b ++ ":refs/heads/".toList ++ branch]] := by
  have hr0 : truthy (some r) = true := by
    rw [truthy_eq_true_iff]
    exact ⟨r, rfl, by rw [hsplit]; simp⟩
  have hlast : (jsSplit '/' r).getLast? = some branch := by
    rw [hsplit]
    exact jsSplit_getLast pre branch hbranch
  have htb : truthy (some b) = true := (truthy_eq_true_iff _).2 ⟨b, rfl, hb0⟩
  have htbr : truthy (some branch) = true := (truthy_eq_true_iff _).2 ⟨branch, rfl, hbranch0⟩
  simp only [afterVerdict, if_true, Run.attempt_ret_trace, hb, hr, hr0, Option.getD_some, hlast,
    htb, htbr, Bool.and_self, Run.perform]

/-- C4, evaluated on a push to `feature/x` that adds `// untuk testing`: the
verdict is `true` and the one force-push of the run has the refspec
`aaa:refs/heads/x`, whose destination is not the ref of the event,
`refs/heads/feature/x`. -/
theorem reset_misses_branch_with_slash :
    slashPayload.ref = some "refs/heads/feature/x".toList ∧
      (detectIndonesianComments sampleWorld (some slashPayload)).result = .ok true ∧
      (syncRepository sampleWorld (some slashPayload)).trace.filter isForcePushToOrigin =
        [.push ["--force".toList, "origin".toList, "aaa:refs/heads/x".toList]] ∧
      "refs/heads/x".toList ≠ "refs/heads/feature/x".toList := by
  refine ⟨rfl, rfl, ?_, ?_⟩ <;> decide

end Mirror
